import Mathlib

/-!
Verification of the m3u_tools repository (src/split_m3u.py, src/combine_m3u.py),
a pair of Python scripts that split a master M3U playlist into per-entry files
and combine a directory of M3U files back into one master playlist.

The Python functions are shallowly embedded: a file read with `readlines()` is
modelled as a list of raw line strings (each raw line keeps its trailing
newline, except possibly the last line of a file, and contains no interior
newline); the filesystem effects of each script are modelled explicitly
(written files as association lists of name and content, effect traces for
ordering claims).  Python string primitives (`strip`, `lower`, `startswith`,
`endswith`) are re-implemented character-by-character on `List Char` so that
every definition is executable and kernel-reducible.
-/

namespace M3U

/-! ### Python string primitives -/

/-- Whitespace recognized by Python `str.strip()` in the ASCII range: space,
tab, newline, carriage return, vertical tab, form feed. -/
def isSpace (c : Char) : Bool :=
  c = ' ' || c = '\t' || c = '\n' || c = '\r' || c = '\x0b' || c = '\x0c'

/-- Remove leading whitespace from a character list. -/
def lstrip (d : List Char) : List Char := d.dropWhile isSpace

/-- Remove trailing whitespace from a character list. -/
def rstrip (d : List Char) : List Char := (d.reverse.dropWhile isSpace).reverse

/-- Python `s.strip()`: remove leading and trailing whitespace. -/
def pyStrip (s : String) : String := ⟨rstrip (lstrip s.data)⟩

/-- ASCII lower-casing of one character, as Python `str.lower()` acts on the
ASCII characters that occur in M3U headers and file names. -/
def asciiLower (c : Char) : Char :=
  if 65 ≤ c.toNat && c.toNat ≤ 90 then Char.ofNat (c.toNat + 32) else c

/-- Python `s.lower()` (restricted to ASCII input). -/
def pyLower (s : String) : String :=
  ⟨s.data.map asciiLower⟩

/-- Python `s.startswith(p)`. -/
def pyStartsWith (s p : String) : Bool :=
  p.data.isPrefixOf s.data

/-- Python `s.endswith(p)`. -/
def pyEndsWith (s p : String) : Bool :=
  p.data.isSuffixOf s.data

/-! ### Text lines

`pyLines` recovers the raw lines of a text file's contents exactly as Python's
line iteration / `readlines()` does: each line runs up to and includes a
newline character, and a final fragment without a newline is its own last
line.  `mergeLines` describes, at the level of a list of appended strings,
which line structure results from concatenating them:  a piece ending in a
newline closes a line, a piece without one is glued to what follows. -/

/-- Worker for `pyLines`: `acc` holds the characters of the current
still-open line, in reverse order. -/
def pyLinesAux : List Char → List Char → List String
  | [], acc => if acc.isEmpty then [] else [⟨acc.reverse⟩]
  | c :: cs, acc =>
    if c = '\n' then ⟨acc.reverse ++ ['\n']⟩ :: pyLinesAux cs []
    else pyLinesAux cs (c :: acc)

/-- The lines of a string, Python `readlines()`-style (newline kept at the end
of each line; a trailing fragment without a newline counts as a line). -/
def pyLines (s : String) : List String := pyLinesAux s.data []

/-- A string shaped like one raw line from `readlines()`: any newline can only
be its last character. -/
def lineShaped (l : String) : Prop := '\n' ∉ l.data.dropLast

instance (l : String) : Decidable (lineShaped l) := by
  unfold lineShaped; infer_instance

/-- Whether a string's last character is a newline. -/
def endsNl (l : String) : Bool := l.data.getLast? == some '\n'

/-- Worker for `mergeLines`: `acc` holds the characters of the currently open
(not yet newline-terminated) output line. -/
def mergeLinesAux : List Char → List String → List String
  | acc, [] => if acc.isEmpty then [] else [⟨acc⟩]
  | acc, l :: rest =>
    if endsNl l then ⟨acc ++ l.data⟩ :: mergeLinesAux [] rest
    else mergeLinesAux (acc ++ l.data) rest

/-- The line structure obtained by concatenating a list of line-shaped pieces:
pieces ending in a newline close a line; a piece with no newline is glued
together with the following pieces into a single line. -/
def mergeLines (ls : List String) : List String := mergeLinesAux [] ls

/-- Python `outfile.writelines(buf)` / sequential `write` calls: the written
file contents are the concatenation of the buffered strings. -/
def writelinesOutput (buf : List String) : String :=
  ⟨(buf.map String.data).flatten⟩

/-! ### Decimal numerals

Python renders `file_count` and the collision counter with f-strings, i.e. as
ordinary decimal numerals.  `natRepr` re-implements that decimal rendering. -/

/-- Digit characters of `n` in base 10, most significant first; `fuel` bounds
the recursion depth (any `fuel > log10 n` gives the exact numeral). -/
def natReprAux : Nat → Nat → List Char
  | 0, _ => []
  | fuel+1, n =>
    if n < 10 then [Nat.digitChar n]
    else natReprAux fuel (n / 10) ++ [Nat.digitChar (n % 10)]

/-- Decimal numeral of `n`, as Python's `f"{n}"` renders a nonnegative int. -/
def natRepr (n : Nat) : String := ⟨natReprAux (n+1) n⟩

/-- Reads a digit string back as a number (left inverse used to prove that
`natRepr` is injective). -/
def digitsVal (ds : List Char) : Nat :=
  ds.foldl (fun acc d => acc * 10 + (d.toNat - 48)) 0

/-! ### The splitter: src/split_m3u.py, function split_m3u_playlist

Lines 32-75 of split_m3u.py scan the `readlines()` result with index `i`.
Each raw line is first stripped (line 33).  A stripped line starting with
`#EXTINF:` is a metadata line (line 35); the title is extracted with
`re.search(r'#EXTINF:.*?\,(.*?)$', line)` (line 39).  Both quantifiers of the
regex are lazy, and the line has no newline (it was stripped), so the regex
matches iff the line contains a comma, and group 1 is then everything after
the *first* comma (the literal `#EXTINF:` prefix itself contains no comma);
`afterFirstComma` embeds exactly that.  Group 1 is stripped (line 41), then
the characters `\ / : * ? " < > |` are deleted (line 43); an empty result, or
no regex match, falls back to `unknown_stream_<file_count>` (lines 44-47).
If the *next* raw line exists and its stripped form does not start with `#`
it is taken as the URL (lines 50-53), and a three-line file is written
(lines 65-68) under the first free name `<title>.m3u`, `<title>_1.m3u`,
`<title>_2.m3u`, ... (lines 56-63). -/

/-- Characters after the first comma of a character list, or `none` when it
contains no comma. -/
def afterFirstComma : List Char → Option (List Char)
  | [] => none
  | c :: cs => if c = ',' then some cs else afterFirstComma cs

/-- Embedding of `re.search(r'#EXTINF:.*?\,(.*?)$', line)` followed by
`.group(1).strip()`, for a stripped line that starts with `#EXTINF:`:
the lazy `.*?\,` stops at the first comma and the lazy anchored `(.*?)$`
then captures the whole remainder of the line. -/
def extractTitle (line : String) : Option String :=
  (afterFirstComma line.data).map (fun cs => pyStrip ⟨cs⟩)

/-- Embedding of `re.sub(r'[\\/:*?"<>|]', '', title)` (split_m3u.py line 43). -/
def sanitizeTitle (s : String) : String :=
  ⟨s.data.filter (fun c => !(c ∈ ['\\', '/', ':', '*', '?', '"', '<', '>', '|']))⟩

/-- The title string used for the output filename of a metadata line, given
the current value of `file_count` (split_m3u.py lines 39-47). -/
def deriveTitle (line : String) (count : Nat) : String :=
  match extractTitle line with
  | none => "unknown_stream_" ++ natRepr count
  | some t =>
    let t1 := sanitizeTitle t
    if t1 = "" then "unknown_stream_" ++ natRepr count else t1

/-- Candidate output filename number `k` for a title: `<title>.m3u` for
`k = 0`, and `<title>_<k>.m3u` for `k ≥ 1` (split_m3u.py lines 56-62; file
names are taken relative to the output directory). -/
def nameFor (title : String) (k : Nat) : String :=
  if k = 0 then title ++ ".m3u" else title ++ "_" ++ natRepr k ++ ".m3u"

/-- The `while os.path.exists(output_filename)` loop of split_m3u.py lines
60-63, trying candidates `k, k+1, ...` against the set of files present in
the output directory.  The Python loop is unbounded; `existing.length + 2`
fuel is always enough, because the candidate names are pairwise distinct
(proved below), so among the first `existing.length + 1` candidates at least
one is free and the fuel-exhausted fallback is never reached. -/
def chooseNameGo (existing : List String) (title : String) : Nat → Nat → String
  | 0, k => nameFor title k
  | fuel+1, k =>
    if nameFor title k ∈ existing then chooseNameGo existing title fuel (k+1)
    else nameFor title k

/-- The unique output filename chosen for a title given the files already
present in the output directory (split_m3u.py lines 56-63). -/
def chooseName (existing : List String) (title : String) : String :=
  chooseNameGo existing title (existing.length + 2) 0

/-- State threaded through the splitter's scan: the files written so far into
the (initially empty) output directory, in order, and `file_count`. -/
structure SplitState where
  files : List (String × List String)
  count : Nat
deriving DecidableEq

/-- Names of the files written so far — what `os.path.exists` sees in an
initially empty output directory. -/
def writtenNames (st : SplitState) : List String := st.files.map Prod.fst

/-- One iteration of the `for i, line in enumerate(lines)` loop of
split_m3u.py lines 32-75: `l` is the current raw line, `nextRaw` is
`lines[i+1]` when `i + 1 < len(lines)`. -/
def splitStep (l : String) (nextRaw : Option String) (st : SplitState) : SplitState :=
  let line := pyStrip l
  if pyStartsWith line "#EXTINF:" then
    let title := deriveTitle line st.count
    match nextRaw with
    | none => st
    | some nl =>
      let nxt := pyStrip nl
      if pyStartsWith nxt "#" then st
      else
        let name := chooseName (writtenNames st) title
        { files := st.files ++ [(name, ["#EXTM3U\n", line ++ "\n", nxt ++ "\n"])],
          count := st.count + 1 }
  else st

/-- The splitter's scan over all lines (split_m3u.py lines 32-75). -/
def splitGo : List String → SplitState → SplitState
  | [], st => st
  | l :: rest, st => splitGo rest (splitStep l rest.head? st)

/-- Embedding of `split_m3u_playlist` restricted to its normal path: input
already read as raw lines, output directory initially empty.  Returns the
files written and the final `file_count`. -/
def split_m3u_playlist (lines : List String) : SplitState :=
  splitGo lines ⟨[], 0⟩

/-- The (stripped metadata line, stripped URL line) pairs the splitter's scan
identifies in a list of raw lines: a pair for every line whose stripped form
starts with `#EXTINF:` and whose following line exists and does not (after
stripping) start with `#`. -/
def parsePairs : List String → List (String × String)
  | [] => []
  | l :: rest =>
    let line := pyStrip l
    let tail := parsePairs rest
    if pyStartsWith line "#EXTINF:" then
      match rest with
      | [] => tail
      | nl :: _ =>
        if pyStartsWith (pyStrip nl) "#" then tail else (line, pyStrip nl) :: tail
    else tail

/-- Contents of the three-line file the splitter writes for one entry
(split_m3u.py lines 65-68). -/
def entryContent (p : String × String) : List String :=
  ["#EXTM3U\n", p.1 ++ "\n", p.2 ++ "\n"]

/-- Invariants of a (metadata, URL) pair identified by the splitter's scan in
a readlines-shaped input: both components are stripped and newline-free, the
metadata line starts with `#EXTINF:` and the URL line does not start with
`#`. -/
def goodPair (p : String × String) : Prop :=
  pyStrip p.1 = p.1 ∧ pyStartsWith p.1 "#EXTINF:" = true ∧ '\n' ∉ p.1.data ∧
  pyStrip p.2 = p.2 ∧ pyStartsWith p.2 "#" = false ∧ '\n' ∉ p.2.data

/-! ### Splitter run with filesystem effects

`split_m3u_playlist` performs, in order: a check-then-create of the output
directory (lines 20-22, *outside* the try block), the open/readlines of the
input file (line 26, inside the try block), and one file write per entry
(lines 65-68, inside the try block).  `FileNotFoundError` and any other
exception raised inside the try block are caught and printed (lines 77-80);
an exception raised by `os.makedirs` is not caught and propagates to the
caller.  `BodyOutcome` abstracts what the try-block body does: it reads the
input normally, raises `FileNotFoundError` at the open, or raises some other
exception after having written `written` files. -/

inductive FsEvent
  | mkdirOut (dir : String)
  | openRead (file : String)
  | writeFile (name : String)
deriving DecidableEq

/-- Whether an event changes the filesystem (reads do not). -/
def isChange : FsEvent → Bool
  | .mkdirOut _ => true
  | .openRead _ => false
  | .writeFile _ => true

/-- What the try-block body of `split_m3u_playlist` does in one invocation. -/
inductive BodyOutcome
  | normal (lines : List String)
  | fileNotFound
  | otherExc (written : List (String × List String)) (msg : String)
deriving DecidableEq

/-- How one invocation of `split_m3u_playlist` ends: returning normally with
the given final state, or letting an exception propagate to the caller. -/
inductive SplitOutcome
  | completed (st : SplitState)
  | propagated (msg : String)
deriving DecidableEq

/-- Observable result of one splitter invocation: outcome, ordered filesystem
events, and the user-facing messages printed. -/
structure RunReport where
  result : SplitOutcome
  events : List FsEvent
  messages : List String
deriving DecidableEq

/-- The try/except part of `split_m3u_playlist` (lines 25-82), entered with
the filesystem events `pre` already performed by the directory check. -/
def splitTryBody (inputFile : String) (body : BodyOutcome) (pre : List FsEvent) : RunReport :=
  match body with
  | .fileNotFound =>
    { result := .completed ⟨[], 0⟩
      events := pre ++ [.openRead inputFile]
      messages :=
        ["Error: The input M3U file " ++ inputFile ++
           " was not found. Please verify the file path.",
         "M3U playlist splitting complete. Total individual files created: " ++
           natRepr 0 ++ "."] }
  | .otherExc written e =>
    { result := .completed ⟨written, written.length⟩
      events := pre ++ [.openRead inputFile] ++ written.map (fun f => FsEvent.writeFile f.1)
      messages :=
        ["An unexpected error occurred during processing: " ++ e,
         "M3U playlist splitting complete. Total individual files created: " ++
           natRepr written.length ++ "."] }
  | .normal lines =>
    let st := split_m3u_playlist lines
    { result := .completed st
      events := pre ++ [.openRead inputFile] ++ st.files.map (fun f => FsEvent.writeFile f.1)
      messages :=
        ["M3U playlist splitting complete. Total individual files created: " ++
           natRepr st.count ++ "."] }

/-- Embedding of one full invocation of `split_m3u_playlist` (lines 18-82):
`outDirExists` is whether the output directory already exists at entry;
`mkdirFail = some e` means `os.makedirs` raises an exception rendered as `e`
(e.g. a permission error), which the function does not catch. -/
def split_m3u_run (outDirExists : Bool) (mkdirFail : Option String)
    (inputFile outDir : String) (body : BodyOutcome) : RunReport :=
  if outDirExists then splitTryBody inputFile body []
  else
    match mkdirFail with
    | some e => { result := .propagated e, events := [], messages := [] }
    | none => splitTryBody inputFile body [.mkdirOut outDir]

/-! ### The combiner: src/combine_m3u.py, function combine_m3u_files

Lines 21-59: if the input directory does not exist, print an error and
return.  Otherwise walk the directory tree; every file whose name satisfies
`filename.lower().endswith('.m3u')` is opened and iterated line by line: a
line whose stripped form is empty or equals `#extm3u` case-insensitively is
dropped, every other line is appended to the buffer unchanged (lines 40-45).
The buffer was initialized with the single header line `"#EXTM3U\n"`
(line 27).  If no matching file was found, print a message and return without
writing (lines 47-49); otherwise write the concatenated buffer to the output
file (lines 52-53).  `walkFiles` is the list of (file name, raw lines) pairs
the `os.walk` traversal yields, in traversal order. -/

/-- `filename.lower().endswith('.m3u')` (combine_m3u.py line 35). -/
def isM3uName (name : String) : Bool := pyEndsWith (pyLower name) ".m3u"

/-- The keep test of combine_m3u.py line 44: a line is appended iff its
stripped form is nonempty and differs case-insensitively from `#EXTM3U`. -/
def keepLine (l : String) : Bool :=
  pyStrip l ≠ "" && pyLower (pyStrip l) ≠ "#extm3u"

/-- The output buffer `combined_content` after processing the matched files:
the header line followed by every kept line, in input order
(combine_m3u.py lines 25-45). -/
def combinedBuffer (matched : List (String × List String)) : List String :=
  "#EXTM3U\n" :: matched.flatMap (fun f => f.2.filter keepLine)

/-- Embedding of one full invocation of `combine_m3u_files` (lines 19-59):
returns the contents written to the output file (`none` when nothing is
written) together with the user-facing error or success message. -/
def combine_m3u_run (dirExists : Bool) (walkFiles : List (String × List String))
    (inputDirectory outputFile : String) : Option String × List String :=
  if !dirExists then
    (none,
     ["Error: The input directory " ++ inputDirectory ++
        " does not exist. Please ensure the directory is valid and contains M3U files."])
  else
    let matched := walkFiles.filter (fun f => isM3uName f.1)
    if matched.isEmpty then
      (none,
       ["No .m3u files were found in the directory " ++ inputDirectory ++
          ". Ensure that the directory contains M3U files for combination."])
    else
      (some (writelinesOutput (combinedBuffer matched)),
       ["Successfully combined all M3U files into: " ++ outputFile])

/-! ## Lemmas about the Python string primitives -/

theorem dropWhile_head_false {α} {p : α → Bool} {l : List α} :
    ∀ {x xs}, l.dropWhile p = x :: xs → p x = false := by
  induction l with
  | nil => intro x xs h; simp at h
  | cons a t ih =>
    intro x xs h
    rw [List.dropWhile_cons] at h
    by_cases hp : p a
    · exact ih (by simpa [hp] using h)
    · obtain ⟨rfl, -⟩ : a = x ∧ t = xs := by
        simpa [hp] using h
      simpa using hp

theorem dropWhile_head?_false {α} {p : α → Bool} {l : List α} {x : α}
    (h : (l.dropWhile p).head? = some x) : p x = false := by
  cases hd : l.dropWhile p with
  | nil => rw [hd] at h; simp at h
  | cons y ys =>
    rw [hd] at h
    simp only [List.head?_cons, Option.some.injEq] at h
    exact h ▸ dropWhile_head_false hd

theorem lstrip_idem (d : List Char) : lstrip (lstrip d) = lstrip d := by
  cases h : lstrip d with
  | nil => simp [lstrip]
  | cons x xs =>
    have hx : isSpace x = false := dropWhile_head_false h
    simp [lstrip, List.dropWhile_cons, hx]

theorem rstrip_prefix (d : List Char) : rstrip d <+: d := by
  have h1 : List.dropWhile isSpace d.reverse <:+ d.reverse := List.dropWhile_suffix _
  have h2 := List.reverse_prefix.mpr h1
  simpa [rstrip] using h2

theorem rstrip_rstrip (d : List Char) : rstrip (rstrip d) = rstrip d := by
  unfold rstrip
  rw [List.reverse_reverse]
  congr 1
  exact lstrip_idem d.reverse

theorem lstrip_rstrip_lstrip (d : List Char) :
    lstrip (rstrip (lstrip d)) = rstrip (lstrip d) := by
  cases hy : lstrip d with
  | nil => simp [rstrip, lstrip]
  | cons x xs =>
    have hx : isSpace x = false := dropWhile_head_false hy
    cases hr : rstrip (x :: xs) with
    | nil => simp [lstrip]
    | cons z zs =>
      have hpre := rstrip_prefix (x :: xs)
      rw [hr] at hpre
      obtain ⟨t, ht⟩ := hpre
      have hz : z = x := by
        rw [List.cons_append] at ht
        exact (List.cons.injEq _ _ _ _ ▸ ht).1
      simp [lstrip, List.dropWhile_cons, hz, hx]

/-- Python stripping is idempotent. -/
theorem pyStrip_idem (s : String) : pyStrip (pyStrip s) = pyStrip s := by
  show (⟨rstrip (lstrip (rstrip (lstrip s.data)))⟩ : String) = ⟨rstrip (lstrip s.data)⟩
  rw [lstrip_rstrip_lstrip, rstrip_rstrip]

theorem dropWhile_nl (cs : List Char) :
    List.dropWhile isSpace ('\n' :: cs) = List.dropWhile isSpace cs := by
  simp [List.dropWhile_cons, isSpace]

theorem lstrip_append_nl (d : List Char) :
    lstrip (d ++ ['\n']) = if (lstrip d).isEmpty then [] else lstrip d ++ ['\n'] := by
  unfold lstrip
  rw [List.dropWhile_append]
  by_cases h : (List.dropWhile isSpace d).isEmpty <;> simp [h, isSpace]

theorem rstrip_append_nl (e : List Char) : rstrip (e ++ ['\n']) = rstrip e := by
  unfold rstrip
  rw [List.reverse_append]
  simp only [List.reverse_cons, List.reverse_nil, List.nil_append, List.singleton_append]
  rw [dropWhile_nl]

theorem pyStrip_data_append_nl (s : String) :
    pyStrip ⟨s.data ++ ['\n']⟩ = pyStrip s := by
  show (⟨rstrip (lstrip (s.data ++ ['\n']))⟩ : String) = ⟨rstrip (lstrip s.data)⟩
  rw [lstrip_append_nl]
  by_cases h : (lstrip s.data).isEmpty
  · rw [if_pos h]
    rw [List.isEmpty_iff] at h
    rw [h]
  · rw [if_neg h, rstrip_append_nl]

theorem str_append_nl_data (s : String) : s ++ "\n" = (⟨s.data ++ ['\n']⟩ : String) := by
  cases s with
  | mk d => rfl

/-- Stripping a string with one newline appended is the same as stripping the
string itself. -/
theorem pyStrip_append_nl (s : String) : pyStrip (s ++ "\n") = pyStrip s := by
  rw [str_append_nl_data, pyStrip_data_append_nl]

theorem rstrip_getLast?_not_space {d : List Char} {c : Char}
    (h : (rstrip d).getLast? = some c) : isSpace c = false := by
  have h1 : (rstrip d).getLast? = (List.dropWhile isSpace d.reverse).head? :=
    List.getLast?_reverse _
  exact dropWhile_head?_false (h1 ▸ h)

theorem mem_dropLast_of_getLast?_ne {α} {l : List α} {a : α}
    (hmem : a ∈ l) (hne : l.getLast? ≠ some a) : a ∈ l.dropLast := by
  have hl : l ≠ [] := by rintro rfl; simp at hmem
  have hsplit := List.dropLast_concat_getLast hl
  rw [← hsplit] at hmem
  rcases List.mem_append.mp hmem with h | h
  · exact h
  · simp at h
    exact absurd (List.getLast?_eq_getLast l hl ▸ congrArg some h.symm) hne

/-- Stripping a raw `readlines()` line leaves no newline in the result. -/
theorem noNl_pyStrip {l : String} (h : lineShaped l) : '\n' ∉ (pyStrip l).data := by
  intro hmem
  have hrdata : (pyStrip l).data = rstrip (lstrip l.data) := rfl
  rw [hrdata] at hmem
  set d := l.data with hd
  set y := lstrip d with hy
  set r := rstrip y with hr
  have hnl_ne_last : r.getLast? ≠ some '\n' := by
    intro hlast
    have := rstrip_getLast?_not_space (hr ▸ hlast)
    simp [isSpace] at this
  have hmem_dl : '\n' ∈ r.dropLast := mem_dropLast_of_getLast?_ne hmem hnl_ne_last
  have hry : r <+: y := rstrip_prefix y
  have hyd : y <:+ d := List.dropWhile_suffix _
  have hyne : y ≠ [] := by
    rintro h0
    rw [h0] at hry
    have : r = [] := List.prefix_nil.mp hry
    rw [this] at hmem; simp at hmem
  obtain ⟨t, ht⟩ := hry
  obtain ⟨u, hu⟩ := hyd
  have hmem_y_dl : '\n' ∈ y.dropLast := by
    rcases eq_or_ne t [] with rfl | htne
    · rw [List.append_nil] at ht
      rw [ht] at hmem_dl
      exact hmem_dl
    · have : y.dropLast = r ++ t.dropLast := by
        rw [← ht]
        exact List.dropLast_append_of_ne_nil _ htne
      rw [this]
      exact List.mem_append.mpr (Or.inl (List.mem_of_mem_dropLast hmem_dl))
  have hmem_d_dl : '\n' ∈ d.dropLast := by
    have : d.dropLast = u ++ y.dropLast := by
      rw [← hu]
      exact List.dropLast_append_of_ne_nil _ hyne
    rw [this]
    exact List.mem_append.mpr (Or.inr hmem_y_dl)
  exact h hmem_d_dl

/-! ## Lemmas about line structure -/

theorem pyLinesAux_append_noNl {a : List Char} (h : '\n' ∉ a) :
    ∀ (s : List Char) (acc : List Char),
      pyLinesAux (a ++ s) acc = pyLinesAux s (a.reverse ++ acc) := by
  induction a with
  | nil => intro s acc; simp
  | cons c a' ih =>
    intro s acc
    have hc : c ≠ '\n' := fun h0 => h (h0 ▸ List.mem_cons_self _ _)
    have ha' : '\n' ∉ a' := fun h0 => h (List.mem_cons_of_mem _ h0)
    rw [List.cons_append, pyLinesAux, if_neg hc, ih ha']
    congr 1
    simp

theorem endsNl_iff {l : String} : endsNl l = true ↔ l.data.getLast? = some '\n' := by
  unfold endsNl
  exact beq_iff_eq

theorem data_decomp_of_endsNl {l : String} (hs : lineShaped l) (he : endsNl l = true) :
    l.data = l.data.dropLast ++ ['\n'] ∧ '\n' ∉ l.data.dropLast := by
  have hlast := endsNl_iff.mp he
  have hne : l.data ≠ [] := by
    intro h0; rw [h0] at hlast; simp at hlast
  have := List.dropLast_concat_getLast hne
  rw [List.getLast?_eq_getLast _ hne, Option.some.injEq] at hlast
  exact ⟨by rw [hlast] at this; exact this.symm, hs⟩

theorem noNl_of_not_endsNl {l : String} (hs : lineShaped l) (he : endsNl l = false) :
    '\n' ∉ l.data := by
  intro hmem
  have hne : l.data.getLast? ≠ some '\n' := by
    intro h0
    rw [endsNl_iff.mpr h0] at he
    simp at he
  exact hs (mem_dropLast_of_getLast?_ne hmem hne)

/-- Concatenating line-shaped pieces produces exactly the line structure
described by `mergeLines`.  `acc` is the reversed still-open line of
`pyLinesAux`; `mergeLinesAux` receives it in reading order. -/
theorem pyLinesAux_flatten :
    ∀ (ls : List String) (acc : List Char), (∀ l ∈ ls, lineShaped l) →
      pyLinesAux ((ls.map String.data).flatten) acc = mergeLinesAux acc.reverse ls := by
  intro ls
  induction ls with
  | nil =>
    intro acc _
    show pyLinesAux [] acc = mergeLinesAux acc.reverse []
    rw [pyLinesAux, mergeLinesAux]
    rcases eq_or_ne acc [] with rfl | hne
    · simp
    · rw [if_neg (by simpa using hne), if_neg (by simpa using hne)]
  | cons l rest ih =>
    intro acc hsh
    have hl : lineShaped l := hsh l (List.mem_cons_self _ _)
    have hrest : ∀ x ∈ rest, lineShaped x := fun x hx => hsh x (List.mem_cons_of_mem _ hx)
    show pyLinesAux (l.data ++ (rest.map String.data).flatten) acc =
      mergeLinesAux acc.reverse (l :: rest)
    cases he : endsNl l with
    | true =>
      obtain ⟨hdec, hnonl⟩ := data_decomp_of_endsNl hl he
      rw [mergeLinesAux, if_pos he]
      rw [hdec, List.append_assoc, pyLinesAux_append_noNl hnonl, List.singleton_append,
        pyLinesAux, if_pos rfl, ih [] hrest]
      simp only [List.reverse_append, List.reverse_reverse, List.reverse_nil,
        List.append_assoc, List.nil_append]
    | false =>
      have hnonl : '\n' ∉ l.data := noNl_of_not_endsNl hl he
      rw [mergeLinesAux, if_neg (by simp [he])]
      rw [pyLinesAux_append_noNl hnonl, ih (l.data.reverse ++ acc) hrest]
      congr 1
      simp

/-- Writing a buffer of line-shaped strings produces a file whose lines are
exactly `mergeLines` of the buffer. -/
theorem pyLines_writelines {buf : List String} (h : ∀ l ∈ buf, lineShaped l) :
    pyLines (writelinesOutput buf) = mergeLines buf := by
  have := pyLinesAux_flatten buf [] h
  simpa [pyLines, writelinesOutput, mergeLines] using this

theorem string_mk_data (l : String) : (⟨l.data⟩ : String) = l := by
  cases l; rfl

/-- When every buffered string ends with a newline, concatenation preserves
the buffer's line structure exactly. -/
theorem mergeLines_all_endsNl :
    ∀ {ls : List String}, (∀ l ∈ ls, endsNl l = true) → mergeLines ls = ls := by
  intro ls
  induction ls with
  | nil => intro _; rfl
  | cons l rest ih =>
    intro h
    have hl := h l (List.mem_cons_self _ _)
    have hrest : ∀ x ∈ rest, endsNl x = true := fun x hx => h x (List.mem_cons_of_mem _ hx)
    show mergeLinesAux [] (l :: rest) = l :: rest
    rw [mergeLinesAux, if_pos (by simp [hl])]
    rw [List.nil_append, string_mk_data]
    congr 1
    exact ih hrest

/-! ## Decimal numerals are injective -/

theorem digitsVal_append (a b : List Char) :
    digitsVal (a ++ b) = b.foldl (fun acc d => acc * 10 + (d.toNat - 48)) (digitsVal a) := by
  simp [digitsVal, List.foldl_append]

theorem digitsVal_natReprAux (fuel n : Nat) (h : n < 10 ^ fuel) :
    digitsVal (natReprAux fuel n) = n := by
  induction fuel generalizing n with
  | zero =>
    have hn : n = 0 := by simpa using h
    subst hn; rfl
  | succ f ih =>
    rw [natReprAux]
    by_cases h10 : n < 10
    · simp [h10, digitsVal]
      interval_cases n <;> decide
    · rw [if_neg h10, digitsVal_append]
      simp only [List.foldl_cons, List.foldl_nil]
      have hdiv : n / 10 < 10 ^ f := by
        rw [Nat.div_lt_iff_lt_mul (by omega)]
        calc n < 10 ^ (f+1) := h
        _ = 10 ^ f * 10 := by ring
      rw [ih (n / 10) hdiv]
      have hm : n % 10 < 10 := Nat.mod_lt _ (by omega)
      have : (Nat.digitChar (n % 10)).toNat - 48 = n % 10 := by
        interval_cases h : (n % 10) <;> decide
      rw [this]
      omega

/-- Distinct numbers have distinct decimal numerals. -/
theorem natRepr_inj : Function.Injective natRepr := by
  intro m n h
  have hm : m < 10 ^ (m + 1) :=
    lt_of_lt_of_le (Nat.lt_pow_self (by omega) m) (Nat.pow_le_pow_right (by omega) (by omega))
  have hn : n < 10 ^ (n + 1) :=
    lt_of_lt_of_le (Nat.lt_pow_self (by omega) n) (Nat.pow_le_pow_right (by omega) (by omega))
  have hd : natReprAux (m+1) m = natReprAux (n+1) n := congrArg String.data h
  calc m = digitsVal (natReprAux (m+1) m) := (digitsVal_natReprAux _ _ hm).symm
  _ = digitsVal (natReprAux (n+1) n) := by rw [hd]
  _ = n := digitsVal_natReprAux _ _ hn

/-! ## The collision-avoidance loop picks the first free suffix -/

/-- The candidate file names for one title are pairwise distinct. -/
theorem nameFor_inj (title : String) : Function.Injective (nameFor title) := by
  intro j k h
  unfold nameFor at h
  rcases Nat.eq_zero_or_pos j with rfl | hj <;> rcases Nat.eq_zero_or_pos k with rfl | hk
  · rfl
  · rw [if_pos rfl, if_neg (by omega)] at h
    have hdata := congrArg String.data h
    simp only [String.data_append, List.append_assoc] at hdata
    have h1 := @List.append_cancel_left _ title.data _ _ hdata
    simp at h1
  · rw [if_neg (by omega), if_pos rfl] at h
    have hdata := congrArg String.data h
    simp only [String.data_append, List.append_assoc] at hdata
    have h1 := @List.append_cancel_left _ title.data _ _ hdata
    simp at h1
  · rw [if_neg (by omega), if_neg (by omega)] at h
    have hdata := congrArg String.data h
    simp only [String.data_append, List.append_assoc] at hdata
    have h1 := @List.append_cancel_left _ title.data _ _ hdata
    have h2 := @List.append_cancel_left _ "_".data _ _ h1
    have h3 : (natRepr j).data = (natRepr k).data := List.append_cancel_right h2
    refine natRepr_inj ?_
    rw [← string_mk_data (natRepr j), ← string_mk_data (natRepr k)]
    exact congrArg String.mk h3

/-- Among the first `existing.length + 1` candidate names, at least one is
not taken (pigeonhole on the distinct candidates). -/
theorem exists_free_name (existing : List String) (title : String) :
    ∃ k, k ≤ existing.length ∧ nameFor title k ∉ existing := by
  by_contra hall
  push_neg at hall
  set cands := (List.range (existing.length + 1)).map (nameFor title) with hc
  have hnd : cands.Nodup :=
    (List.nodup_range _).map (nameFor_inj title)
  have hsub : cands ⊆ existing := by
    intro x hx
    rw [hc, List.mem_map] at hx
    obtain ⟨k, hk, rfl⟩ := hx
    exact hall k (by simpa using Nat.lt_succ_iff.mp (List.mem_range.mp hk))
  have hlen : cands.length ≤ existing.length := by
    calc cands.length = cands.toFinset.card := (List.toFinset_card_of_nodup hnd).symm
    _ ≤ existing.toFinset.card := Finset.card_le_card (fun x hx => by
        rw [List.mem_toFinset] at *
        exact hsub hx)
    _ ≤ existing.length := existing.toFinset_card_le
  rw [hc] at hlen
  simp at hlen

theorem chooseNameGo_spec (existing : List String) (title : String) :
    ∀ (fuel start : Nat), (∃ j, j < fuel ∧ nameFor title (start + j) ∉ existing) →
      ∃ j, j < fuel ∧
        chooseNameGo existing title fuel start = nameFor title (start + j) ∧
        nameFor title (start + j) ∉ existing ∧
        ∀ i < j, nameFor title (start + i) ∈ existing := by
  intro fuel
  induction fuel with
  | zero =>
    intro start h
    obtain ⟨j, hj, -⟩ := h
    omega
  | succ f ih =>
    intro start h
    by_cases hmem : nameFor title start ∈ existing
    · obtain ⟨j, hj, hfree⟩ := h
      have hjpos : j ≠ 0 := by
        rintro rfl
        rw [Nat.add_zero] at hfree
        exact hfree hmem
      obtain ⟨j', rfl⟩ := Nat.exists_eq_succ_of_ne_zero hjpos
      have hex : ∃ i, i < f ∧ nameFor title (start + 1 + i) ∉ existing :=
        ⟨j', by omega, by rw [show start + 1 + j' = start + (j' + 1) by omega]; exact hfree⟩
      obtain ⟨i, hi, heq, hfree', hmin⟩ := ih (start + 1) hex
      refine ⟨i + 1, by omega, ?_, ?_, ?_⟩
      · rw [chooseNameGo, if_pos hmem, heq]
        congr 1
        omega
      · rw [show start + (i + 1) = start + 1 + i by omega]
        exact hfree'
      · intro m hm
        rcases Nat.eq_zero_or_pos m with rfl | hmpos
        · simpa using hmem
        · obtain ⟨m', rfl⟩ := Nat.exists_eq_succ_of_ne_zero (show m ≠ 0 by omega)
          rw [show start + (m' + 1) = start + 1 + m' by omega]
          exact hmin m' (by omega)
    · exact ⟨0, by omega, by rw [chooseNameGo, if_neg hmem]; rw [Nat.add_zero],
        by simpa using hmem, by omega⟩

/-- `chooseName` returns the first free candidate name: the base `<title>.m3u`
when it is free, and otherwise `<title>_<k>.m3u` for the least free `k ≥ 1`. -/
theorem chooseName_spec (existing : List String) (title : String) :
    ∃ k, chooseName existing title = nameFor title k ∧
      nameFor title k ∉ existing ∧
      ∀ i < k, nameFor title i ∈ existing := by
  obtain ⟨k0, hk0, hfree0⟩ := exists_free_name existing title
  obtain ⟨j, -, heq, hfree, hmin⟩ :=
    chooseNameGo_spec existing title (existing.length + 2) 0 ⟨k0, by omega, by simpa using hfree0⟩
  exact ⟨j, by simpa using heq, by simpa using hfree, fun i hi => by simpa using hmin i hi⟩

/-- The splitter never overwrites: the chosen name is always fresh. -/
theorem chooseName_free (existing : List String) (title : String) :
    chooseName existing title ∉ existing := by
  obtain ⟨k, heq, hfree, -⟩ := chooseName_spec existing title
  rw [heq]
  exact hfree

/-! ## Structure of the splitter's output -/

theorem startsWith_hash_of_extinf {s : String}
    (h : pyStartsWith s "#EXTINF:" = true) : pyStartsWith s "#" = true := by
  unfold pyStartsWith at *
  rw [ List.isPrefixOf_iff_prefix] at *
  exact List.IsPrefix.trans (by decide) h

/-- The files written by the splitter's scan are exactly the three-line
contents of the metadata/URL pairs it identifies, appended in order, and the
final `file_count` counts them. -/
theorem splitGo_spec (lines : List String) :
    ∀ st : SplitState,
      (splitGo lines st).files.map Prod.snd
          = st.files.map Prod.snd ++ (parsePairs lines).map entryContent ∧
        (splitGo lines st).count = st.count + (parsePairs lines).length := by
  induction lines with
  | nil => intro st; simp [splitGo, parsePairs]
  | cons l rest ih =>
    intro st
    rw [splitGo]
    by_cases hE : pyStartsWith (pyStrip l) "#EXTINF:"
    · cases rest with
      | nil =>
        simp only [List.head?_nil]
        have hstep : splitStep l none st = st := by
          simp [splitStep, hE]
        rw [hstep]
        simp [splitGo, parsePairs, hE]
      | cons nl rest' =>
        simp only [List.head?_cons]
        by_cases hH : pyStartsWith (pyStrip nl) "#"
        · have hstep : splitStep l (some nl) st = st := by
            simp [splitStep, hE, hH]
          rw [hstep]
          have hpp : parsePairs (l :: nl :: rest') = parsePairs (nl :: rest') := by
            simp [parsePairs, hE, hH]
          rw [hpp]
          exact ih st
        · have hstep : splitStep l (some nl) st =
              ⟨st.files ++ [(chooseName (writtenNames st) (deriveTitle (pyStrip l) st.count),
                entryContent (pyStrip l, pyStrip nl))], st.count + 1⟩ := by
            simp [splitStep, hE, hH, entryContent]
          rw [hstep]
          have hpp : parsePairs (l :: nl :: rest') =
              (pyStrip l, pyStrip nl) :: parsePairs (nl :: rest') := by
            simp [parsePairs, hE, hH]
          rw [hpp]
          obtain ⟨hf, hc⟩ := ih ⟨st.files ++ [(chooseName (writtenNames st)
            (deriveTitle (pyStrip l) st.count), entryContent (pyStrip l, pyStrip nl))], st.count + 1⟩
          constructor
          · rw [hf]
            simp
          · rw [hc]
            simp
            omega
    · have hstep : splitStep l rest.head? st = st := by
        simp [splitStep, hE]
      rw [hstep]
      have hpp : parsePairs (l :: rest) = parsePairs rest := by
        simp [parsePairs, hE]
      rw [hpp]
      exact ih st

/-- One splitter iteration either leaves the state unchanged or appends one
file under a name not yet present. -/
theorem splitStep_cases (l : String) (nextRaw : Option String) (st : SplitState) :
    splitStep l nextRaw st = st ∨
      ∃ name content, name ∉ writtenNames st ∧
        splitStep l nextRaw st = ⟨st.files ++ [(name, content)], st.count + 1⟩ := by
  by_cases hE : pyStartsWith (pyStrip l) "#EXTINF:"
  · cases nextRaw with
    | none => left; simp [splitStep, hE]
    | some nl =>
      by_cases hH : pyStartsWith (pyStrip nl) "#"
      · left; simp [splitStep, hE, hH]
      · right
        refine ⟨chooseName (writtenNames st) (deriveTitle (pyStrip l) st.count),
          ["#EXTM3U\n", pyStrip l ++ "\n", pyStrip nl ++ "\n"],
          chooseName_free _ _, ?_⟩
        simp [splitStep, hE, hH]
  · left; simp [splitStep, hE]

/-- The splitter never writes two files with the same name. -/
theorem splitGo_nodup (lines : List String) :
    ∀ st : SplitState, (writtenNames st).Nodup → (writtenNames (splitGo lines st)).Nodup := by
  induction lines with
  | nil => intro st h; exact h
  | cons l rest ih =>
    intro st h
    rw [splitGo]
    rcases splitStep_cases l rest.head? st with heq | ⟨name, content, hfresh, heq⟩
    · rw [heq]; exact ih st h
    · rw [heq]
      refine ih _ ?_
      have : writtenNames ⟨st.files ++ [(name, content)], st.count + 1⟩
          = writtenNames st ++ [name] := by
        simp [writtenNames]
      rw [this]
      simp [List.nodup_append, h, hfresh]

/-- Every file name the splitter produces ends in `.m3u` (case-insensitively,
trivially so since it ends in lowercase `.m3u`). -/
theorem isM3uName_append (s : String) : isM3uName (s ++ ".m3u") = true := by
  unfold isM3uName pyEndsWith
  rw [List.isSuffixOf_iff_suffix]
  have hdata : (pyLower (s ++ ".m3u")).data
      = s.data.map asciiLower ++ ['.', 'm', '3', 'u'] := by
    show (s ++ ".m3u").data.map asciiLower = s.data.map asciiLower ++ ['.', 'm', '3', 'u']
    rw [String.data_append, List.map_append]
    congr 1
  rw [hdata]
  exact List.suffix_append _ _

theorem isM3uName_nameFor (title : String) (k : Nat) : isM3uName (nameFor title k) = true := by
  unfold nameFor
  rcases Nat.eq_zero_or_pos k with rfl | hk
  · rw [if_pos rfl]
    exact isM3uName_append title
  · rw [if_neg (by omega)]
    exact isM3uName_append (title ++ "_" ++ natRepr k)

theorem isM3uName_chooseName (existing : List String) (title : String) :
    isM3uName (chooseName existing title) = true := by
  obtain ⟨k, heq, -, -⟩ := chooseName_spec existing title
  rw [heq]
  exact isM3uName_nameFor title k

/-- All names produced by the splitter's scan end in `.m3u`. -/
theorem splitGo_names_m3u (lines : List String) :
    ∀ st : SplitState, (∀ f ∈ st.files, isM3uName f.1 = true) →
      ∀ f ∈ (splitGo lines st).files, isM3uName f.1 = true := by
  induction lines with
  | nil => intro st h; exact h
  | cons l rest ih =>
    intro st h
    rw [splitGo]
    rcases splitStep_cases l rest.head? st with heq | ⟨name, content, hfresh, heq⟩
    · rw [heq]; exact ih st h
    · rw [heq]
      refine ih _ ?_
      intro f hf
      rcases List.mem_append.mp hf with hf1 | hf1
      · exact h f hf1
      · have hf2 : f = (name, content) := by simpa using hf1
        rw [hf2]
        have hname : ∃ title, name = chooseName (writtenNames st) title := by
          by_cases hE : pyStartsWith (pyStrip l) "#EXTINF:"
          · cases nextRaw : rest.head? with
            | none =>
              rw [nextRaw] at heq
              exfalso
              have : splitStep l none st = st := by simp [splitStep, hE]
              rw [this] at heq
              have := congrArg SplitState.count heq
              simp at this
            | some nl =>
              rw [nextRaw] at heq
              by_cases hH : pyStartsWith (pyStrip nl) "#"
              · exfalso
                have : splitStep l (some nl) st = st := by simp [splitStep, hE, hH]
                rw [this] at heq
                have := congrArg SplitState.count heq
                simp at this
              · refine ⟨deriveTitle (pyStrip l) st.count, ?_⟩
                have : splitStep l (some nl) st =
                    ⟨st.files ++ [(chooseName (writtenNames st)
                      (deriveTitle (pyStrip l) st.count),
                      ["#EXTM3U\n", pyStrip l ++ "\n", pyStrip nl ++ "\n"])],
                      st.count + 1⟩ := by
                  simp [splitStep, hE, hH]
                rw [this] at heq
                have hfiles := congrArg SplitState.files heq
                simp only at hfiles
                have := List.append_cancel_left hfiles
                simp at this
                exact this.1.symm
          · exfalso
            have : splitStep l rest.head? st = st := by simp [splitStep, hE]
            rw [this] at heq
            have := congrArg SplitState.count heq
            simp at this
        obtain ⟨title, rfl⟩ := hname
        exact isM3uName_chooseName _ _

/-! ## Lemmas about the combiner's keep test -/

theorem char_toNat_ofNat {n : Nat} (h : n ≤ 122) : (Char.ofNat n).toNat = n := by
  unfold Char.ofNat
  split
  · rfl
  · omega

theorem asciiLower_eq_hash {c : Char} (h : asciiLower c = '#') : c = '#' := by
  unfold asciiLower at h
  by_cases hc : 65 ≤ c.toNat && c.toNat ≤ 90
  · rw [if_pos hc] at h
    exfalso
    simp only [Bool.and_eq_true, decide_eq_true_eq] at hc
    have h1 := congrArg Char.toNat h
    rw [char_toNat_ofNat (by omega)] at h1
    have : ('#' : Char).toNat = 35 := by decide
    omega
  · rw [if_neg hc] at h
    exact h

theorem pyLower_data_length (s : String) : (pyLower s).data.length = s.data.length := by
  simp [pyLower]

theorem startsWith_length_le {s p : String} (h : pyStartsWith s p = true) :
    p.data.length ≤ s.data.length := by
  unfold pyStartsWith at h
  rw [ List.isPrefixOf_iff_prefix] at h
  exact h.length_le

theorem extinf_ne_empty {m : String} (h : pyStartsWith m "#EXTINF:" = true) : m ≠ "" := by
  intro h0
  have := startsWith_length_le h
  rw [h0] at this
  simp at this

theorem extinf_lower_ne_header {m : String} (h : pyStartsWith m "#EXTINF:" = true) :
    pyLower m ≠ "#extm3u" := by
  intro h0
  have hlen := congrArg (fun s => s.data.length) h0
  simp only at hlen
  rw [pyLower_data_length] at hlen
  have h8 := startsWith_length_le h
  simp at h8 hlen
  omega

theorem url_lower_ne_header {u : String} (hne : u ≠ "")
    (hh : pyStartsWith u "#" = false) : pyLower u ≠ "#extm3u" := by
  intro h0
  obtain ⟨c, cs, hcs⟩ : ∃ c cs, u.data = c :: cs := by
    cases hu : u.data with
    | nil =>
      exfalso
      apply hne
      cases u with
      | mk d => cases hu; rfl
    | cons c cs => exact ⟨c, cs, rfl⟩
  have h1 : (pyLower u).data = asciiLower c :: cs.map asciiLower := by
    simp [pyLower, hcs]
  rw [h0] at h1
  have h2 : asciiLower c = '#' := by
    have := congrArg List.head? h1
    simp at this
    exact this.symm
  have h3 : c = '#' := asciiLower_eq_hash h2
  have hpre : ("#".data : List Char) <+: u.data := by
    rw [hcs, h3]
    exact ⟨cs, rfl⟩
  have htrue : "#".data.isPrefixOf u.data = true := List.isPrefixOf_iff_prefix.mpr hpre
  rw [pyStartsWith] at hh
  rw [htrue] at hh
  exact Bool.false_ne_true hh.symm

/-! ## Round-trip infrastructure -/

theorem parsePairs_cons_skip {l : String}
    (h : pyStartsWith (pyStrip l) "#EXTINF:" = false) (rest : List String) :
    parsePairs (l :: rest) = parsePairs rest := by
  simp [parsePairs, h]

theorem not_extinf_of_not_hash {s : String} (h : pyStartsWith s "#" = false) :
    pyStartsWith s "#EXTINF:" = false := by
  by_contra hcon
  rw [Bool.not_eq_false] at hcon
  rw [startsWith_hash_of_extinf hcon] at h
  exact Bool.false_ne_true h.symm

/-- Every pair produced by the splitter's scan of readlines-shaped input
satisfies the `goodPair` invariants. -/
theorem parsePairs_good {lines : List String} (hsh : ∀ l ∈ lines, lineShaped l) :
    ∀ p ∈ parsePairs lines, goodPair p := by
  induction lines with
  | nil => intro p hp; simp [parsePairs] at hp
  | cons l rest ih =>
    intro p hp
    have hshr : ∀ x ∈ rest, lineShaped x := fun x hx => hsh x (List.mem_cons_of_mem _ hx)
    by_cases hE : pyStartsWith (pyStrip l) "#EXTINF:"
    · cases rest with
      | nil =>
        have : parsePairs [l] = [] := by simp [parsePairs, hE]
        rw [this] at hp
        simp at hp
      | cons nl rest' =>
        by_cases hH : pyStartsWith (pyStrip nl) "#"
        · have : parsePairs (l :: nl :: rest') = parsePairs (nl :: rest') := by
            simp [parsePairs, hE, hH]
          rw [this] at hp
          exact ih hshr p hp
        · have : parsePairs (l :: nl :: rest') =
              (pyStrip l, pyStrip nl) :: parsePairs (nl :: rest') := by
            simp [parsePairs, hE, hH]
          rw [this] at hp
          rcases List.mem_cons.mp hp with rfl | hp'
          · refine ⟨pyStrip_idem l, hE, noNl_pyStrip (hsh l (List.mem_cons_self _ _)), ?_, ?_, ?_⟩
            · exact pyStrip_idem nl
            · simpa using hH
            · exact noNl_pyStrip (hshr nl (List.mem_cons_self _ _))
          · exact ih hshr p hp'
    · rw [parsePairs_cons_skip (by simpa using hE)] at hp
      exact ih hshr p hp

theorem keepLine_of_entry {m : String} (hs : pyStrip m = m) (hne : m ≠ "")
    (hlow : pyLower m ≠ "#extm3u") : keepLine (m ++ "\n") = true := by
  unfold keepLine
  rw [pyStrip_append_nl, hs]
  simp [hne, hlow]

/-- The combiner keeps exactly the metadata and URL lines of a split file. -/
theorem filter_entryContent {p : String × String} (hg : goodPair p) (hne : p.2 ≠ "") :
    (entryContent p).filter keepLine = [p.1 ++ "\n", p.2 ++ "\n"] := by
  obtain ⟨h1, h1s, -, h2, h2s, -⟩ := hg
  have k0 : keepLine "#EXTM3U\n" = false := by decide
  have k1 : keepLine (p.1 ++ "\n") = true :=
    keepLine_of_entry h1 (extinf_ne_empty h1s) (extinf_lower_ne_header h1s)
  have k2 : keepLine (p.2 ++ "\n") = true :=
    keepLine_of_entry h2 hne (url_lower_ne_header hne h2s)
  simp [entryContent, List.filter, k0, k1, k2]

/-- Parsing the combiner's buffer built from good pairs recovers the pairs. -/
theorem parsePairs_blocks (qs : List (String × String)) (h : ∀ q ∈ qs, goodPair q) :
    parsePairs ("#EXTM3U\n" :: qs.flatMap (fun q => [q.1 ++ "\n", q.2 ++ "\n"])) = qs := by
  rw [parsePairs_cons_skip (by decide)]
  induction qs with
  | nil => rfl
  | cons q qs' ih =>
    obtain ⟨h1, h1s, -, h2, h2s, -⟩ := h q (List.mem_cons_self _ _)
    have hrest := fun x hx => h x (List.mem_cons_of_mem _ hx)
    have hq1 : pyStrip (q.1 ++ "\n") = q.1 := by rw [pyStrip_append_nl, h1]
    have hq2 : pyStrip (q.2 ++ "\n") = q.2 := by rw [pyStrip_append_nl, h2]
    have hflat : (q :: qs').flatMap (fun r => [r.1 ++ "\n", r.2 ++ "\n"])
        = (q.1 ++ "\n") :: (q.2 ++ "\n") :: qs'.flatMap (fun r => [r.1 ++ "\n", r.2 ++ "\n"]) := by
      simp
    rw [hflat]
    have hstep : parsePairs ((q.1 ++ "\n") :: (q.2 ++ "\n") ::
        qs'.flatMap (fun r => [r.1 ++ "\n", r.2 ++ "\n"]))
        = (q.1, q.2) :: parsePairs ((q.2 ++ "\n") ::
            qs'.flatMap (fun r => [r.1 ++ "\n", r.2 ++ "\n"])) := by
      simp [parsePairs, hq1, hq2, h1s, h2s]
    rw [hstep]
    have hskip : pyStartsWith (pyStrip (q.2 ++ "\n")) "#EXTINF:" = false := by
      rw [hq2]
      exact not_extinf_of_not_hash h2s
    rw [parsePairs_cons_skip hskip, ih hrest]

/-- A permutation of a mapped list is the map of a permutation of the list. -/
theorem perm_map_pullback {α β} (g : α → β) :
    ∀ (l : List α) (l2 : List β), l2.Perm (l.map g) →
      ∃ l0 : List α, l0.Perm l ∧ l2 = l0.map g := by
  intro l
  induction l with
  | nil =>
    intro l2 h
    simp only [List.map_nil] at h
    exact ⟨[], List.Perm.refl _, by simpa using h.eq_nil⟩
  | cons a t ih =>
    intro l2 h
    have ha : g a ∈ l2 := h.mem_iff.mpr (by simp)
    obtain ⟨u, v, rfl⟩ := List.append_of_mem ha
    have huv : (u ++ v).Perm (t.map g) := by
      have h1 : (u ++ g a :: v).Perm (g a :: (u ++ v)) := List.perm_middle
      have h2 := h1.symm.trans h
      rw [List.map_cons] at h2
      exact (List.perm_cons _).mp h2
    obtain ⟨t0, ht0, hmap⟩ := ih (u ++ v) huv
    have hu : t0.map g = u ++ v := hmap.symm
    refine ⟨t0.take u.length ++ a :: t0.drop u.length, ?_, ?_⟩
    · have hp1 : (t0.take u.length ++ a :: t0.drop u.length).Perm
          (a :: (t0.take u.length ++ t0.drop u.length)) := List.perm_middle
      rw [List.take_append_drop] at hp1
      exact hp1.trans ((List.perm_cons a).mpr ht0)
    · rw [List.map_append, List.map_cons]
      congr 1
      · rw [List.map_take, hu]
        exact (List.take_left u v).symm
      · congr 1
        rw [List.map_drop, hu]
        exact (List.drop_left u v).symm

/-! ## Written files and their line structure -/

theorem keepLine_ne_empty {l : String} (h : keepLine l = true) : l ≠ "" := by
  rintro rfl
  have h0 : keepLine "" = false := by decide
  rw [h0] at h
  exact Bool.false_ne_true h

theorem data_ne_nil {l : String} (h : l ≠ "") : l.data ≠ [] := by
  intro h0
  apply h
  cases l with
  | mk d => cases h0; rfl

theorem endsNl_append_nl (s : String) : endsNl (s ++ "\n") = true := by
  unfold endsNl
  rw [str_append_nl_data]
  show ((s.data ++ ['\n']).getLast? == some '\n') = true
  rw [List.getLast?_concat]
  simp

theorem lineShaped_append_nl {s : String} (h : '\n' ∉ s.data) : lineShaped (s ++ "\n") := by
  unfold lineShaped
  rw [str_append_nl_data]
  show '\n' ∉ (s.data ++ ['\n']).dropLast
  rw [List.dropLast_concat]
  exact h

/-- Reading back a written split file yields exactly its three lines. -/
theorem pyLines_entryContent {p : String × String}
    (h1 : '\n' ∉ p.1.data) (h2 : '\n' ∉ p.2.data) :
    pyLines (writelinesOutput (entryContent p)) = entryContent p := by
  have hsh : ∀ l ∈ entryContent p, lineShaped l := by
    intro l hl
    simp only [entryContent, List.mem_cons, List.not_mem_nil, or_false] at hl
    rcases hl with rfl | rfl | rfl
    · decide
    · exact lineShaped_append_nl h1
    · exact lineShaped_append_nl h2
  have hnl : ∀ l ∈ entryContent p, endsNl l = true := by
    intro l hl
    simp only [entryContent, List.mem_cons, List.not_mem_nil, or_false] at hl
    rcases hl with rfl | rfl | rfl
    · decide
    · exact endsNl_append_nl _
    · exact endsNl_append_nl _
  rw [pyLines_writelines hsh, mergeLines_all_endsNl hnl]

theorem writelines_ne_nil :
    ∀ (buf : List String), buf ≠ [] → (∀ l ∈ buf, l ≠ "") →
      (writelinesOutput buf).data ≠ [] := by
  intro buf hne hall
  cases buf with
  | nil => exact absurd rfl hne
  | cons l rest =>
    have : (writelinesOutput (l :: rest)).data
        = l.data ++ ((rest.map String.data).flatten) := by
      simp [writelinesOutput]
    rw [this]
    intro h0
    rcases List.append_eq_nil.mp h0 with ⟨h1, -⟩
    exact data_ne_nil (hall l (List.mem_cons_self _ _)) h1

/-- The last character of a written buffer is the last character of its last
element (all elements nonempty). -/
theorem writelines_getLast? :
    ∀ (buf : List String), buf ≠ [] → (∀ l ∈ buf, l ≠ "") →
      ∃ last c, buf.getLast? = some last ∧ last.data.getLast? = some c ∧
        (writelinesOutput buf).data.getLast? = some c := by
  intro buf
  induction buf with
  | nil => intro h _; exact absurd rfl h
  | cons l rest ih =>
    intro _ hall
    cases rest with
    | nil =>
      have hl : l ≠ "" := hall l (List.mem_cons_self _ _)
      obtain ⟨c, hc⟩ : ∃ c, l.data.getLast? = some c := by
        cases hg : l.data.getLast? with
        | none =>
          exfalso
          exact data_ne_nil hl (by simpa using hg)
        | some c => exact ⟨c, rfl⟩
      refine ⟨l, c, rfl, hc, ?_⟩
      show ((l.data ++ []).getLast?) = some c
      rw [List.append_nil]
      exact hc
    | cons r rest' =>
      obtain ⟨last, c, hlast, hc, hout⟩ :=
        ih (by simp) (fun x hx => hall x (List.mem_cons_of_mem _ hx))
      refine ⟨last, c, ?_, hc, ?_⟩
      · rw [List.getLast?_cons_cons]
        exact hlast
      · have hdata : (writelinesOutput (l :: r :: rest')).data
            = l.data ++ (writelinesOutput (r :: rest')).data := by
          simp [writelinesOutput]
        rw [hdata, List.getLast?_append, hout]
        rfl

/-- The written output ends in a newline iff the last buffered string does. -/
theorem endsNl_writelines {buf : List String} (hne : buf ≠ [])
    (hall : ∀ l ∈ buf, l ≠ "") :
    endsNl (writelinesOutput buf) = endsNl (buf.getLastD "") := by
  obtain ⟨last, c, hlast, hc, hout⟩ := writelines_getLast? buf hne hall
  have hD : buf.getLastD "" = last := by
    rw [List.getLastD_eq_getLast?, hlast]
    rfl
  rw [hD]
  unfold endsNl
  rw [hout, hc]

/-! ## Well-formed master playlists -/

/-- Scanning the interleaved lines of well-formed entries yields exactly the
stripped pairs. -/
theorem parsePairs_flatMap_entries (es : List (String × String))
    (hwf : ∀ p ∈ es, pyStartsWith (pyStrip p.1) "#EXTINF:" = true ∧
      pyStartsWith (pyStrip p.2) "#" = false) :
    parsePairs (es.flatMap (fun p => [p.1, p.2]))
      = es.map (fun p => (pyStrip p.1, pyStrip p.2)) := by
  induction es with
  | nil => rfl
  | cons p es' ih =>
    obtain ⟨h1, h2⟩ := hwf p (List.mem_cons_self _ _)
    have hwfr := fun q hq => hwf q (List.mem_cons_of_mem _ hq)
    have hflat : (p :: es').flatMap (fun q => [q.1, q.2])
        = p.1 :: p.2 :: es'.flatMap (fun q => [q.1, q.2]) := by
      simp
    rw [hflat]
    have hstep : parsePairs (p.1 :: p.2 :: es'.flatMap (fun q => [q.1, q.2]))
        = (pyStrip p.1, pyStrip p.2) :: parsePairs (p.2 :: es'.flatMap (fun q => [q.1, q.2])) := by
      simp [parsePairs, h1, h2]
    rw [hstep, parsePairs_cons_skip (not_extinf_of_not_hash h2), ih hwfr]
    simp

/-- Parsing a well-formed master playlist (header followed by the interleaved
entry lines) yields exactly the stripped pairs. -/
theorem parsePairs_master (es : List (String × String))
    (hwf : ∀ p ∈ es, pyStartsWith (pyStrip p.1) "#EXTINF:" = true ∧
      pyStartsWith (pyStrip p.2) "#" = false) :
    parsePairs ("#EXTM3U\n" :: es.flatMap (fun p => [p.1, p.2]))
      = es.map (fun p => (pyStrip p.1, pyStrip p.2)) := by
  rw [parsePairs_cons_skip (by decide), parsePairs_flatMap_entries es hwf]

/-! ## The claims -/

/-- C1: the spec and the code's own comment (split_m3u.py line 38) say the
title is the text after the *last* comma of the metadata line, but the lazy
regex `#EXTINF:.*?\,(.*?)$` captures everything after the *first* comma.
Evaluated at the failing input `#EXTINF:-1,a,b` the code derives the title
`a,b`, not `b`. -/
theorem c1_title_after_first_comma :
    extractTitle "#EXTINF:-1,a,b" = some "a,b" ∧
    deriveTitle "#EXTINF:-1,a,b" 0 = "a,b" ∧
    ("a,b" : String) ≠ "b" := by decide

/-- C2, counterexample: the splitter writes the *stripped* metadata line, not
the original line with only its line ending removed.  On the well-formed
playlist with the padded metadata line `"  #EXTINF:-1,T  \n"`, the written
file's second line is `"#EXTINF:-1,T\n"`, which differs from the original
line with only the newline removed. -/
theorem c2_counterexample :
    (split_m3u_playlist ["#EXTM3U\n", "  #EXTINF:-1,T  \n", "http://u\n"]).files
      = [("T.m3u", ["#EXTM3U\n", "#EXTINF:-1,T\n", "http://u\n"])] ∧
    ("#EXTINF:-1,T\n" : String) ≠ "  #EXTINF:-1,T  " ++ "\n" := by decide

/-- C2 (amended): for every well-formed master playlist with N entries (each
entry a metadata line whose stripped form starts with `#EXTINF:`, immediately
followed by a URL line whose stripped form does not start with `#`),
splitting into an initially empty output directory produces exactly N files
with pairwise distinct names, and each file consists of exactly 3 lines: the
header `#EXTM3U`, the *stripped* metadata line, and the stripped URL line. -/
theorem c2_amended (es : List (String × String))
    (hwf : ∀ p ∈ es, pyStartsWith (pyStrip p.1) "#EXTINF:" = true ∧
      pyStartsWith (pyStrip p.2) "#" = false)
    (hsh : ∀ p ∈ es, lineShaped p.1 ∧ lineShaped p.2) :
    (split_m3u_playlist ("#EXTM3U\n" :: es.flatMap (fun p => [p.1, p.2]))).files.length
        = es.length ∧
    (split_m3u_playlist ("#EXTM3U\n" :: es.flatMap (fun p => [p.1, p.2]))).count = es.length ∧
    (writtenNames (split_m3u_playlist ("#EXTM3U\n" :: es.flatMap (fun p => [p.1, p.2])))).Nodup ∧
    (split_m3u_playlist ("#EXTM3U\n" :: es.flatMap (fun p => [p.1, p.2]))).files.map Prod.snd
        = es.map (fun p => ["#EXTM3U\n", pyStrip p.1 ++ "\n", pyStrip p.2 ++ "\n"]) ∧
    ∀ f ∈ (split_m3u_playlist ("#EXTM3U\n" :: es.flatMap (fun p => [p.1, p.2]))).files,
      f.2.length = 3 ∧ pyLines (writelinesOutput f.2) = f.2 := by
  obtain ⟨hfiles, hcount⟩ :=
    splitGo_spec ("#EXTM3U\n" :: es.flatMap (fun p => [p.1, p.2])) ⟨[], 0⟩
  rw [parsePairs_master es hwf] at hfiles hcount
  simp only [SplitState.files, List.map_nil, List.nil_append] at hfiles
  have hmap : (split_m3u_playlist ("#EXTM3U\n" :: es.flatMap (fun p => [p.1, p.2]))).files.map
      Prod.snd = es.map (fun p => ["#EXTM3U\n", pyStrip p.1 ++ "\n", pyStrip p.2 ++ "\n"]) := by
    rw [show (split_m3u_playlist ("#EXTM3U\n" :: es.flatMap (fun p => [p.1, p.2]))).files.map
        Prod.snd = (splitGo ("#EXTM3U\n" :: es.flatMap (fun p => [p.1, p.2]))
          ⟨[], 0⟩).files.map Prod.snd from rfl]
    rw [hfiles, List.map_map]
    rfl
  refine ⟨?_, ?_, ?_, hmap, ?_⟩
  · have := congrArg List.length hmap
    simpa using this
  · simpa using hcount
  · exact splitGo_nodup _ ⟨[], 0⟩ (by simp [writtenNames])
  · intro f hf
    have hmem : f.2 ∈ (split_m3u_playlist ("#EXTM3U\n" ::
        es.flatMap (fun p => [p.1, p.2]))).files.map Prod.snd := List.mem_map_of_mem _ hf
    rw [hmap] at hmem
    obtain ⟨p, hp, hcontent⟩ := List.mem_map.mp hmem
    have h1 : '\n' ∉ (pyStrip p.1).data := noNl_pyStrip (hsh p hp).1
    have h2 : '\n' ∉ (pyStrip p.2).data := noNl_pyStrip (hsh p hp).2
    have hec : f.2 = entryContent (pyStrip p.1, pyStrip p.2) := hcontent.symm
    rw [hec]
    exact ⟨rfl, pyLines_entryContent h1 h2⟩

/-- C2 witness: the amended statement holds at a concrete one-entry playlist. -/
theorem c2_witness :
    (∀ p ∈ [("#EXTINF:-1,Channel One\n", "http://example.com/1\n")],
      pyStartsWith (pyStrip p.1) "#EXTINF:" = true ∧
      pyStartsWith (pyStrip p.2) "#" = false) ∧
    ((split_m3u_playlist ("#EXTM3U\n" ::
        [("#EXTINF:-1,Channel One\n", "http://example.com/1\n")].flatMap
          (fun p => [p.1, p.2]))).files.length = 1 ∧
      (split_m3u_playlist ("#EXTM3U\n" ::
        [("#EXTINF:-1,Channel One\n", "http://example.com/1\n")].flatMap
          (fun p => [p.1, p.2]))).count = 1 ∧
      (writtenNames (split_m3u_playlist ("#EXTM3U\n" ::
        [("#EXTINF:-1,Channel One\n", "http://example.com/1\n")].flatMap
          (fun p => [p.1, p.2])))).Nodup ∧
      (split_m3u_playlist ("#EXTM3U\n" ::
        [("#EXTINF:-1,Channel One\n", "http://example.com/1\n")].flatMap
          (fun p => [p.1, p.2]))).files.map Prod.snd
        = [("#EXTINF:-1,Channel One\n", "http://example.com/1\n")].map
            (fun p => ["#EXTM3U\n", pyStrip p.1 ++ "\n", pyStrip p.2 ++ "\n"]) ∧
      ∀ f ∈ (split_m3u_playlist ("#EXTM3U\n" ::
        [("#EXTINF:-1,Channel One\n", "http://example.com/1\n")].flatMap
          (fun p => [p.1, p.2]))).files,
        f.2.length = 3 ∧ pyLines (writelinesOutput f.2) = f.2) :=
  ⟨by decide, c2_amended [("#EXTINF:-1,Channel One\n", "http://example.com/1\n")]
    (by decide) (by decide)⟩


/-- C5: when the base name `<title>.m3u` is already taken, the splitter uses
`<title>_<k>.m3u` for the first integer suffix k (starting at 1) whose name
is free; in particular, splitting two entries with identical sanitized titles
into an initially empty directory produces `A.m3u` and `A_1.m3u`. -/
theorem c5_collision_suffix :
    (∀ (existing : List String) (title : String),
      nameFor title 0 ∈ existing →
        ∃ k, 1 ≤ k ∧ chooseName existing title = nameFor title k ∧
          nameFor title k ∉ existing ∧ ∀ j < k, nameFor title j ∈ existing) ∧
    (split_m3u_playlist ["#EXTINF:-1,A\n", "u1\n", "#EXTINF:-1,A\n", "u2\n"]).files.map
        Prod.fst = ["A.m3u", "A_1.m3u"] := by
  constructor
  · intro existing title hbase
    obtain ⟨k, heq, hfree, hmin⟩ := chooseName_spec existing title
    refine ⟨k, ?_, heq, hfree, hmin⟩
    rcases Nat.eq_zero_or_pos k with rfl | hk
    · exact absurd hbase hfree
    · omega
  · decide

/-- C5 witness: concrete instance of the collision rule with the base name
taken. -/
theorem c5_witness :
    (nameFor "A" 0 ∈ ["A.m3u"]) ∧
    (∃ k, 1 ≤ k ∧ chooseName ["A.m3u"] "A" = nameFor "A" k ∧
      nameFor "A" k ∉ ["A.m3u"] ∧ ∀ j < k, nameFor "A" j ∈ ["A.m3u"]) :=
  ⟨by decide, c5_collision_suffix.1 ["A.m3u"] "A" (by decide)⟩

/-- C6, counterexample: the fallback base name `unknown_stream_<k>` is still
subject to collision suffixing.  Here the first entry's *titled* name is
`unknown_stream_1.m3u`; the second entry sanitizes to an empty title with
k = 1 files already written, so the claim predicts the file name
`unknown_stream_1.m3u`, but the splitter writes `unknown_stream_1_1.m3u`. -/
theorem c6_counterexample :
    (split_m3u_playlist
        ["#EXTINF:-1,unknown_stream_1\n", "u1\n", "#EXTINF:-1,?\n", "u2\n"]).files.map
        Prod.fst = ["unknown_stream_1.m3u", "unknown_stream_1_1.m3u"] ∧
    sanitizeTitle "?" = "" ∧
    ("unknown_stream_1_1.m3u" : String) ≠ "unknown_stream_1.m3u" := by decide

/-- C6 (amended): for an entry whose metadata line yields no title (no comma,
or empty after sanitization) and whose next line is a URL line, the splitter
derives the base file name `unknown_stream_<k>.m3u` with k the number of
files already written, resolves collisions against it as usual, and uses
exactly `unknown_stream_<k>.m3u` whenever that name is not already taken. -/
theorem c6_amended (st : SplitState) (l u : String)
    (hE : pyStartsWith (pyStrip l) "#EXTINF:" = true)
    (hU : pyStartsWith (pyStrip u) "#" = false)
    (hfb : ∀ t, extractTitle (pyStrip l) = some t → sanitizeTitle t = "") :
    deriveTitle (pyStrip l) st.count = "unknown_stream_" ++ natRepr st.count ∧
    splitStep l (some u) st =
      ⟨st.files ++ [(chooseName (writtenNames st) ("unknown_stream_" ++ natRepr st.count),
        ["#EXTM3U\n", pyStrip l ++ "\n", pyStrip u ++ "\n"])], st.count + 1⟩ ∧
    (("unknown_stream_" ++ natRepr st.count ++ ".m3u") ∉ writtenNames st →
      chooseName (writtenNames st) ("unknown_stream_" ++ natRepr st.count)
        = "unknown_stream_" ++ natRepr st.count ++ ".m3u") := by
  have hderive : deriveTitle (pyStrip l) st.count = "unknown_stream_" ++ natRepr st.count := by
    cases hext : extractTitle (pyStrip l) with
    | none => simp [deriveTitle, hext]
    | some t => simp [deriveTitle, hext, hfb t hext]
  refine ⟨hderive, ?_, ?_⟩
  · simp [splitStep, hE, hU, hderive]
  · intro hbase
    obtain ⟨k, heq, hfree, hmin⟩ := chooseName_spec (writtenNames st)
      ("unknown_stream_" ++ natRepr st.count)
    rcases Nat.eq_zero_or_pos k with rfl | hk
    · rw [heq]
      rfl
    · exfalso
      have h0 := hmin 0 (by omega)
      rw [show nameFor ("unknown_stream_" ++ natRepr st.count) 0
          = "unknown_stream_" ++ natRepr st.count ++ ".m3u" from rfl] at h0
      exact hbase h0

/-- C6 witness: the amended statement at a concrete entry with empty
sanitized title. -/
theorem c6_witness :
    (pyStartsWith (pyStrip "#EXTINF:-1,?\n") "#EXTINF:" = true) ∧
    (pyStartsWith (pyStrip "u\n") "#" = false) ∧
    (deriveTitle (pyStrip "#EXTINF:-1,?\n") (SplitState.mk [] 0).count
        = "unknown_stream_" ++ natRepr (SplitState.mk [] 0).count ∧
      splitStep "#EXTINF:-1,?\n" (some "u\n") (SplitState.mk [] 0) =
        ⟨(SplitState.mk [] 0).files ++
          [(chooseName (writtenNames (SplitState.mk [] 0))
              ("unknown_stream_" ++ natRepr (SplitState.mk [] 0).count),
            ["#EXTM3U\n", pyStrip "#EXTINF:-1,?\n" ++ "\n", pyStrip "u\n" ++ "\n"])],
          (SplitState.mk [] 0).count + 1⟩ ∧
      (("unknown_stream_" ++ natRepr (SplitState.mk [] 0).count ++ ".m3u")
          ∉ writtenNames (SplitState.mk [] 0) →
        chooseName (writtenNames (SplitState.mk [] 0))
            ("unknown_stream_" ++ natRepr (SplitState.mk [] 0).count)
          = "unknown_stream_" ++ natRepr (SplitState.mk [] 0).count ++ ".m3u")) :=
  ⟨by decide, by decide,
    c6_amended (SplitState.mk [] 0) "#EXTINF:-1,?\n" "u\n" (by decide) (by decide)
      (by decide)⟩


/-- The combiner's kept lines for a list of split files with good pairs. -/
theorem combined_kept (qs : List (String × String))
    (h : ∀ q ∈ qs, goodPair q ∧ q.2 ≠ "") :
    (qs.map entryContent).flatMap (fun c => c.filter keepLine)
      = qs.flatMap (fun q => [q.1 ++ "\n", q.2 ++ "\n"]) := by
  induction qs with
  | nil => rfl
  | cons q qs' ih =>
    obtain ⟨hg, hne⟩ := h q (List.mem_cons_self _ _)
    have hr := fun x hx => h x (List.mem_cons_of_mem _ hx)
    simp only [List.map_cons, List.flatMap_cons, ih hr]
    rw [filter_entryContent hg hne]

/-- C3, counterexample: the round trip is not pair-preserving for every
master playlist.  The playlist `#EXTM3U\n#EXTINF:-1,A\n\n` has the single
entry pair (`#EXTINF:-1,A`, empty URL) — a blank line is a non-comment line,
so it is consumed as the URL.  Splitting writes `A.m3u` with a blank third
line; combining drops that blank line, and the combined playlist contains no
entry pair at all. -/
theorem c3_counterexample :
    parsePairs ["#EXTM3U\n", "#EXTINF:-1,A\n", "\n"] = [("#EXTINF:-1,A", "")] ∧
    (split_m3u_playlist ["#EXTM3U\n", "#EXTINF:-1,A\n", "\n"]).files
      = [("A.m3u", ["#EXTM3U\n", "#EXTINF:-1,A\n", "\n"])] ∧
    combine_m3u_run true
        (split_m3u_playlist ["#EXTM3U\n", "#EXTINF:-1,A\n", "\n"]).files "d" "o"
      = (some "#EXTM3U\n#EXTINF:-1,A\n",
         ["Successfully combined all M3U files into: o"]) ∧
    parsePairs (pyLines "#EXTM3U\n#EXTINF:-1,A\n") = [] ∧
    ([] : List (String × String)) ≠ [("#EXTINF:-1,A", "")] := by decide

/-- C3 (amended): for every readlines-shaped master playlist with at least
one entry and no entry whose URL strips to the empty string, splitting into a
fresh directory and then combining that directory (the walk visiting the
split files in any order) writes a combined playlist whose
(metadata line, URL line) pairs are a permutation of — in particular, the
same set as — the entry pairs of the original playlist. -/
theorem c3_amended (lines : List String) (fs : List (String × List String))
    (inDir outFile : String)
    (hsh : ∀ l ∈ lines, lineShaped l)
    (hurl : ∀ p ∈ parsePairs lines, p.2 ≠ "")
    (hne : parsePairs lines ≠ [])
    (hperm : fs.Perm (split_m3u_playlist lines).files) :
    ∃ out, combine_m3u_run true fs inDir outFile
        = (some out, ["Successfully combined all M3U files into: " ++ outFile]) ∧
      (parsePairs (pyLines out)).Perm (parsePairs lines) ∧
      ∀ p, p ∈ parsePairs (pyLines out) ↔ p ∈ parsePairs lines := by
  obtain ⟨hfiles, -⟩ := splitGo_spec lines ⟨[], 0⟩
  simp only [List.map_nil, List.nil_append] at hfiles
  have hfiles' : (split_m3u_playlist lines).files.map Prod.snd
      = (parsePairs lines).map entryContent := hfiles
  have hm3u : ∀ f ∈ fs, isM3uName f.1 = true := by
    intro f hf
    exact splitGo_names_m3u lines ⟨[], 0⟩ (by simp) f (hperm.mem_iff.mp hf)
  have hfilter : fs.filter (fun f => isM3uName f.1) = fs :=
    List.filter_eq_self.mpr hm3u
  have hfsne : fs ≠ [] := by
    intro h0
    have hfe : (split_m3u_playlist lines).files = [] := (h0 ▸ hperm).symm.eq_nil
    have hlen := congrArg List.length hfiles'
    rw [hfe] at hlen
    simp only [List.map_nil, List.length_nil, List.length_map] at hlen
    exact hne (List.length_eq_zero.mp hlen.symm)
  have hfs_isEmpty : fs.isEmpty = false := by
    rw [Bool.eq_false_iff]
    intro h
    exact hfsne (List.isEmpty_iff.mp h)
  have hrun : combine_m3u_run true fs inDir outFile
      = (some (writelinesOutput (combinedBuffer fs)),
         ["Successfully combined all M3U files into: " ++ outFile]) := by
    simp [combine_m3u_run, hfilter, hfs_isEmpty]
  have hmapsnd : (fs.map Prod.snd).Perm ((parsePairs lines).map entryContent) := by
    have h1 := hperm.map Prod.snd
    rw [hfiles'] at h1
    exact h1
  obtain ⟨qs, hqs_perm, hqs_eq⟩ :=
    perm_map_pullback entryContent (parsePairs lines) (fs.map Prod.snd) hmapsnd
  have hq_good : ∀ q ∈ qs, goodPair q ∧ q.2 ≠ "" := by
    intro q hq
    have hmem : q ∈ parsePairs lines := hqs_perm.mem_iff.mp hq
    exact ⟨parsePairs_good hsh q hmem, hurl q hmem⟩
  have hkept : fs.flatMap (fun f => f.2.filter keepLine)
      = qs.flatMap (fun q => [q.1 ++ "\n", q.2 ++ "\n"]) := by
    have h1 : fs.flatMap (fun f => f.2.filter keepLine)
        = (fs.map Prod.snd).flatMap (fun c => c.filter keepLine) := by
      rw [List.flatMap_map]
    rw [h1, hqs_eq, combined_kept qs hq_good]
  have hbuffer : combinedBuffer fs
      = "#EXTM3U\n" :: qs.flatMap (fun q => [q.1 ++ "\n", q.2 ++ "\n"]) := by
    unfold combinedBuffer
    rw [hkept]
  have hall_sh : ∀ l ∈ combinedBuffer fs, lineShaped l ∧ endsNl l = true := by
    rw [hbuffer]
    intro l hl
    rcases List.mem_cons.mp hl with rfl | hl2
    · exact ⟨by decide, by decide⟩
    · obtain ⟨q, hq, hlq⟩ := List.mem_flatMap.mp hl2
      obtain ⟨hg, -⟩ := hq_good q hq
      obtain ⟨-, -, h1nl, -, -, h2nl⟩ := hg
      simp only [List.mem_cons, List.not_mem_nil, or_false] at hlq
      rcases hlq with rfl | rfl
      · exact ⟨lineShaped_append_nl h1nl, endsNl_append_nl _⟩
      · exact ⟨lineShaped_append_nl h2nl, endsNl_append_nl _⟩
  have hlines : pyLines (writelinesOutput (combinedBuffer fs)) = combinedBuffer fs := by
    rw [pyLines_writelines (fun l hl => (hall_sh l hl).1),
        mergeLines_all_endsNl (fun l hl => (hall_sh l hl).2)]
  have hparse : parsePairs (combinedBuffer fs) = qs := by
    rw [hbuffer]
    exact parsePairs_blocks qs (fun q hq => (hq_good q hq).1)
  refine ⟨writelinesOutput (combinedBuffer fs), hrun, ?_, ?_⟩
  · rw [hlines, hparse]
    exact hqs_perm
  · intro p
    rw [hlines, hparse]
    exact hqs_perm.mem_iff

/-- C3 witness: the round trip at a concrete two-entry playlist, with the
directory walk visiting the two split files in reversed order. -/
theorem c3_witness :
    (∀ l ∈ ["#EXTM3U\n", "#EXTINF:-1,A\n", "http://a\n", "#EXTINF:-1,B\n", "http://b\n"],
      lineShaped l) ∧
    (∀ p ∈ parsePairs ["#EXTM3U\n", "#EXTINF:-1,A\n", "http://a\n",
        "#EXTINF:-1,B\n", "http://b\n"], p.2 ≠ "") ∧
    parsePairs ["#EXTM3U\n", "#EXTINF:-1,A\n", "http://a\n",
        "#EXTINF:-1,B\n", "http://b\n"] ≠ [] ∧
    ([("B.m3u", ["#EXTM3U\n", "#EXTINF:-1,B\n", "http://b\n"]),
      ("A.m3u", ["#EXTM3U\n", "#EXTINF:-1,A\n", "http://a\n"])].Perm
       (split_m3u_playlist ["#EXTM3U\n", "#EXTINF:-1,A\n", "http://a\n",
         "#EXTINF:-1,B\n", "http://b\n"]).files) ∧
    (∃ out, combine_m3u_run true
        [("B.m3u", ["#EXTM3U\n", "#EXTINF:-1,B\n", "http://b\n"]),
         ("A.m3u", ["#EXTM3U\n", "#EXTINF:-1,A\n", "http://a\n"])] "d" "o"
        = (some out, ["Successfully combined all M3U files into: " ++ "o"]) ∧
      (parsePairs (pyLines out)).Perm
        (parsePairs ["#EXTM3U\n", "#EXTINF:-1,A\n", "http://a\n",
          "#EXTINF:-1,B\n", "http://b\n"]) ∧
      ∀ p, p ∈ parsePairs (pyLines out) ↔
        p ∈ parsePairs ["#EXTM3U\n", "#EXTINF:-1,A\n", "http://a\n",
          "#EXTINF:-1,B\n", "http://b\n"]) :=
  ⟨by decide, by decide, by decide, by decide,
    c3_amended ["#EXTM3U\n", "#EXTINF:-1,A\n", "http://a\n",
        "#EXTINF:-1,B\n", "http://b\n"]
      [("B.m3u", ["#EXTM3U\n", "#EXTINF:-1,B\n", "http://b\n"]),
       ("A.m3u", ["#EXTM3U\n", "#EXTINF:-1,A\n", "http://a\n"])] "d" "o"
      (by decide) (by decide) (by decide) (by decide)⟩

/-- C4, counterexample: when an input file's last kept line has no trailing
newline, it merges with the next file's first kept line; the merged text can
itself read `#EXTM3U`, so the header is not always the only `#EXTM3U` line of
the output.  Here both kept lines pass the filter, yet the output has two
`#EXTM3U` lines. -/
theorem c4_counterexample :
    combine_m3u_run true [("a.m3u", ["#EXT"]), ("b.m3u", ["M3U\n"])] "d" "o"
      = (some "#EXTM3U\n#EXTM3U\n", ["Successfully combined all M3U files into: o"]) ∧
    keepLine "#EXT" = true ∧
    keepLine "M3U\n" = true ∧
    (pyLines "#EXTM3U\n#EXTM3U\n").countP (fun l => pyLower (pyStrip l) = "#extm3u") = 2 ∧
    (2 : Nat) ≠ 1 := by decide

/-- C4 (amended): in every successful combiner run (readlines-shaped input),
a line is dropped iff its trimmed form is empty or case-insensitively
`#EXTM3U`; every kept line is appended to the output verbatim, with its
original line ending preserved (the output is the concatenation of the
header line with the kept lines, in order); the output begins with a single
`#EXTM3U` header line; and — provided every line of every matched input file
ends with a newline — that header is the only `#EXTM3U` line of the
output. -/
theorem c4_amended (walkFiles : List (String × List String)) (inDir outFile : String)
    (hsh : ∀ f ∈ walkFiles, ∀ l ∈ f.2, lineShaped l)
    (hne : walkFiles.filter (fun f => isM3uName f.1) ≠ []) :
    ∃ out, combine_m3u_run true walkFiles inDir outFile
        = (some out, ["Successfully combined all M3U files into: " ++ outFile]) ∧
      out = writelinesOutput ("#EXTM3U\n" ::
        (walkFiles.filter (fun f => isM3uName f.1)).flatMap (fun f => f.2.filter keepLine)) ∧
      (∀ l, keepLine l = true ↔ (pyStrip l ≠ "" ∧ pyLower (pyStrip l) ≠ "#extm3u")) ∧
      (pyLines out).head? = some "#EXTM3U\n" ∧
      ((∀ f ∈ walkFiles.filter (fun f => isM3uName f.1), ∀ l ∈ f.2, endsNl l = true) →
        (pyLines out).countP (fun l => pyLower (pyStrip l) = "#extm3u") = 1) := by
  have hempty : (walkFiles.filter (fun f => isM3uName f.1)).isEmpty = false := by
    rw [Bool.eq_false_iff]
    intro h
    exact hne (List.isEmpty_iff.mp h)
  have hrun : combine_m3u_run true walkFiles inDir outFile
      = (some (writelinesOutput (combinedBuffer (walkFiles.filter (fun f => isM3uName f.1)))),
         ["Successfully combined all M3U files into: " ++ outFile]) := by
    simp [combine_m3u_run, hempty]
  have hallsh : ∀ l ∈ combinedBuffer (walkFiles.filter (fun f => isM3uName f.1)),
      lineShaped l := by
    intro l hl
    rcases List.mem_cons.mp hl with rfl | hl2
    · decide
    · obtain ⟨f, hf, hlf⟩ := List.mem_flatMap.mp hl2
      exact hsh f (List.mem_of_mem_filter hf) l (List.mem_of_mem_filter hlf)
  have hmerge : pyLines (writelinesOutput
      (combinedBuffer (walkFiles.filter (fun f => isM3uName f.1))))
      = mergeLines (combinedBuffer (walkFiles.filter (fun f => isM3uName f.1))) :=
    pyLines_writelines hallsh
  have hstep : mergeLines (combinedBuffer (walkFiles.filter (fun f => isM3uName f.1)))
      = "#EXTM3U\n" :: mergeLines ((walkFiles.filter (fun f => isM3uName f.1)).flatMap
          (fun f => f.2.filter keepLine)) := by
    show mergeLinesAux [] ("#EXTM3U\n" :: (walkFiles.filter (fun f => isM3uName f.1)).flatMap
      (fun f => f.2.filter keepLine)) = _
    rw [mergeLinesAux, if_pos (show endsNl "#EXTM3U\n" = true by decide),
      List.nil_append, string_mk_data]
    rfl
  refine ⟨_, hrun, rfl, ?_, ?_, ?_⟩
  · intro l
    simp [keepLine]
  · rw [hmerge, hstep]
    rfl
  · intro hnl
    have hall2 : ∀ l ∈ combinedBuffer (walkFiles.filter (fun f => isM3uName f.1)),
        endsNl l = true := by
      intro l hl
      rcases List.mem_cons.mp hl with rfl | hl2
      · decide
      · obtain ⟨f, hf, hlf⟩ := List.mem_flatMap.mp hl2
        exact hnl f hf l (List.mem_of_mem_filter hlf)
    rw [hmerge, mergeLines_all_endsNl hall2]
    show ("#EXTM3U\n" :: (walkFiles.filter (fun f => isM3uName f.1)).flatMap
      (fun f => f.2.filter keepLine)).countP (fun l => pyLower (pyStrip l) = "#extm3u") = 1
    rw [List.countP_cons]
    have h0 : ((walkFiles.filter (fun f => isM3uName f.1)).flatMap
        (fun f => f.2.filter keepLine)).countP
        (fun l => pyLower (pyStrip l) = "#extm3u") = 0 := by
      rw [List.countP_eq_zero]
      intro l hl
      obtain ⟨f, -, hlf⟩ := List.mem_flatMap.mp hl
      have hk : keepLine l = true := (List.mem_filter.mp hlf).2
      simp only [keepLine, Bool.and_eq_true, decide_eq_true_eq] at hk
      simpa using hk.2
    rw [h0]
    have hh : pyLower (pyStrip "#EXTM3U\n") = "#extm3u" := by decide
    simp [hh]

/-- C4 witness: a concrete successful run with a header line, a blank line,
content lines, and a final line lacking its newline in one matched file. -/
theorem c4_witness :
    (∀ f ∈ [("a.m3u", ["#extm3u\n", "x\n", "\n", "http://u"])],
      ∀ l ∈ f.2, lineShaped l) ∧
    ([("a.m3u", ["#extm3u\n", "x\n", "\n", "http://u"])].filter
      (fun f => isM3uName f.1) ≠ []) ∧
    (∃ out, combine_m3u_run true [("a.m3u", ["#extm3u\n", "x\n", "\n", "http://u"])]
        "d" "o"
        = (some out, ["Successfully combined all M3U files into: " ++ "o"]) ∧
      out = writelinesOutput ("#EXTM3U\n" ::
        ([("a.m3u", ["#extm3u\n", "x\n", "\n", "http://u"])].filter
          (fun f => isM3uName f.1)).flatMap (fun f => f.2.filter keepLine)) ∧
      (∀ l, keepLine l = true ↔ (pyStrip l ≠ "" ∧ pyLower (pyStrip l) ≠ "#extm3u")) ∧
      (pyLines out).head? = some "#EXTM3U\n" ∧
      ((∀ f ∈ [("a.m3u", ["#extm3u\n", "x\n", "\n", "http://u"])].filter
          (fun f => isM3uName f.1), ∀ l ∈ f.2, endsNl l = true) →
        (pyLines out).countP (fun l => pyLower (pyStrip l) = "#extm3u") = 1)) :=
  ⟨by decide, by decide,
    c4_amended [("a.m3u", ["#extm3u\n", "x\n", "\n", "http://u"])] "d" "o"
      (by decide) (by decide)⟩

/-- C10: kept input lines are appended to the buffer verbatim, so the lines
of the written output are exactly `mergeLines` of the buffer: a kept line
lacking its trailing newline is glued together with the next appended line
into a single output line, and the output ends without a newline exactly when
the final kept line lacks one (the header supplies a newline when no line is
kept).  The final conjunct shows a concrete merge: `"http://u"` (no newline)
from one file and `"rl\n"` from the next form the single line
`"http://url\n"`. -/
theorem c10_verbatim_merge (walkFiles : List (String × List String)) (inDir outFile : String)
    (hsh : ∀ f ∈ walkFiles, ∀ l ∈ f.2, lineShaped l)
    (hne : walkFiles.filter (fun f => isM3uName f.1) ≠ []) :
    ∃ out, combine_m3u_run true walkFiles inDir outFile
        = (some out, ["Successfully combined all M3U files into: " ++ outFile]) ∧
      out = writelinesOutput ("#EXTM3U\n" ::
        (walkFiles.filter (fun f => isM3uName f.1)).flatMap (fun f => f.2.filter keepLine)) ∧
      pyLines out = mergeLines ("#EXTM3U\n" ::
        (walkFiles.filter (fun f => isM3uName f.1)).flatMap (fun f => f.2.filter keepLine)) ∧
      endsNl out = endsNl (((walkFiles.filter (fun f => isM3uName f.1)).flatMap
        (fun f => f.2.filter keepLine)).getLastD "#EXTM3U\n") ∧
      pyLines (writelinesOutput (combinedBuffer [("a.m3u", ["http://u"]), ("b.m3u", ["rl\n"])]))
        = ["#EXTM3U\n", "http://url\n"] := by
  have hempty : (walkFiles.filter (fun f => isM3uName f.1)).isEmpty = false := by
    rw [Bool.eq_false_iff]
    intro h
    exact hne (List.isEmpty_iff.mp h)
  have hrun : combine_m3u_run true walkFiles inDir outFile
      = (some (writelinesOutput (combinedBuffer (walkFiles.filter (fun f => isM3uName f.1)))),
         ["Successfully combined all M3U files into: " ++ outFile]) := by
    simp [combine_m3u_run, hempty]
  have hallsh : ∀ l ∈ combinedBuffer (walkFiles.filter (fun f => isM3uName f.1)),
      lineShaped l := by
    intro l hl
    rcases List.mem_cons.mp hl with rfl | hl2
    · decide
    · obtain ⟨f, hf, hlf⟩ := List.mem_flatMap.mp hl2
      exact hsh f (List.mem_of_mem_filter hf) l (List.mem_of_mem_filter hlf)
  have hallne : ∀ l ∈ combinedBuffer (walkFiles.filter (fun f => isM3uName f.1)),
      l ≠ "" := by
    intro l hl
    rcases List.mem_cons.mp hl with rfl | hl2
    · decide
    · obtain ⟨f, -, hlf⟩ := List.mem_flatMap.mp hl2
      exact keepLine_ne_empty (List.mem_filter.mp hlf).2
  refine ⟨_, hrun, rfl, ?_, ?_, by decide⟩
  · exact pyLines_writelines hallsh
  · have hend := @endsNl_writelines (combinedBuffer
      (walkFiles.filter (fun f => isM3uName f.1))) (by simp [combinedBuffer]) hallne
    rw [hend]
    show endsNl (("#EXTM3U\n" :: (walkFiles.filter (fun f => isM3uName f.1)).flatMap
      (fun f => f.2.filter keepLine)).getLastD "") = _
    rw [List.getLastD_cons]

/-- C10 witness: a concrete run whose first matched file ends without a
newline. -/
theorem c10_witness :
    (∀ f ∈ [("x.m3u", ["abc"]), ("y.m3u", ["def\n"])], ∀ l ∈ f.2, lineShaped l) ∧
    ([("x.m3u", ["abc"]), ("y.m3u", ["def\n"])].filter (fun f => isM3uName f.1) ≠ []) ∧
    (∃ out, combine_m3u_run true [("x.m3u", ["abc"]), ("y.m3u", ["def\n"])] "d" "o"
        = (some out, ["Successfully combined all M3U files into: " ++ "o"]) ∧
      out = writelinesOutput ("#EXTM3U\n" ::
        ([("x.m3u", ["abc"]), ("y.m3u", ["def\n"])].filter
          (fun f => isM3uName f.1)).flatMap (fun f => f.2.filter keepLine)) ∧
      pyLines out = mergeLines ("#EXTM3U\n" ::
        ([("x.m3u", ["abc"]), ("y.m3u", ["def\n"])].filter
          (fun f => isM3uName f.1)).flatMap (fun f => f.2.filter keepLine)) ∧
      endsNl out = endsNl ((([("x.m3u", ["abc"]), ("y.m3u", ["def\n"])].filter
        (fun f => isM3uName f.1)).flatMap (fun f => f.2.filter keepLine)).getLastD
          "#EXTM3U\n") ∧
      pyLines (writelinesOutput (combinedBuffer [("a.m3u", ["http://u"]), ("b.m3u", ["rl\n"])]))
        = ["#EXTM3U\n", "http://url\n"]) :=
  ⟨by decide, by decide,
    c10_verbatim_merge [("x.m3u", ["abc"]), ("y.m3u", ["def\n"])] "d" "o"
      (by decide) (by decide)⟩


/-- C7, counterexample: `os.makedirs` (split_m3u.py lines 20-22) runs before
the try block, so an exception it raises — e.g. a permission error creating
the output directory — propagates to the caller; the function does not catch
every exception raised during the operation. -/
theorem c7_counterexample :
    split_m3u_run false (some "PermissionError: cannot create the output directory")
        "playlist.m3u" "out" (BodyOutcome.normal [])
      = ⟨SplitOutcome.propagated "PermissionError: cannot create the output directory",
         [], []⟩ := by decide

/-- C7 (amended): provided directory creation does not itself raise, the
splitter catches every exception raised in its try block and never
propagates one; a missing input file is reported with a file-not-found
message naming the input and no entry file is written (the only filesystem
change is the directory creation, when needed); any other exception is
reported with a message containing the rendered cause.  An exception raised
by `os.makedirs` itself, which sits before the try block, is outside this
guarantee. -/
theorem c7_amended (de : Bool) (inputFile outDir : String) :
    (∀ (body : BodyOutcome) (m : String),
      (split_m3u_run de none inputFile outDir body).result ≠ SplitOutcome.propagated m) ∧
    ((split_m3u_run de none inputFile outDir BodyOutcome.fileNotFound).result
        = SplitOutcome.completed ⟨[], 0⟩ ∧
      (split_m3u_run de none inputFile outDir BodyOutcome.fileNotFound).events.filter isChange
        = (if de then [] else [FsEvent.mkdirOut outDir]) ∧
      (split_m3u_run de none inputFile outDir BodyOutcome.fileNotFound).messages.head?
        = some ("Error: The input M3U file " ++ inputFile ++
            " was not found. Please verify the file path.")) ∧
    (∀ (written : List (String × List String)) (e : String),
      (split_m3u_run de none inputFile outDir (BodyOutcome.otherExc written e)).messages.head?
        = some ("An unexpected error occurred during processing: " ++ e)) := by
  refine ⟨?_, ⟨?_, ?_, ?_⟩, ?_⟩
  · intro body m
    cases de <;> cases body <;> simp [split_m3u_run, splitTryBody]
  · cases de <;> simp [split_m3u_run, splitTryBody]
  · cases de <;> simp [split_m3u_run, splitTryBody, isChange]
  · cases de <;> simp [split_m3u_run, splitTryBody]
  · intro written e
    cases de <;> simp [split_m3u_run, splitTryBody]

/-- C8: whenever the input directory does not exist or the walk finds no file
whose name ends in `.m3u` case-insensitively, the combiner writes no output
file and reports the corresponding descriptive message. -/
theorem c8_no_output (dirExists : Bool) (walkFiles : List (String × List String))
    (inDir outFile : String)
    (h : dirExists = false ∨ walkFiles.filter (fun f => isM3uName f.1) = []) :
    (combine_m3u_run dirExists walkFiles inDir outFile).1 = none ∧
    ((combine_m3u_run dirExists walkFiles inDir outFile).2
        = ["Error: The input directory " ++ inDir ++
            " does not exist. Please ensure the directory is valid and contains M3U files."] ∨
      (combine_m3u_run dirExists walkFiles inDir outFile).2
        = ["No .m3u files were found in the directory " ++ inDir ++
            ". Ensure that the directory contains M3U files for combination."]) := by
  rcases h with rfl | hmatch
  · exact ⟨by simp [combine_m3u_run], Or.inl (by simp [combine_m3u_run])⟩
  · cases dirExists with
    | false => exact ⟨by simp [combine_m3u_run], Or.inl (by simp [combine_m3u_run])⟩
    | true =>
      have hempty : (walkFiles.filter (fun f => isM3uName f.1)).isEmpty = true := by
        rw [List.isEmpty_iff]
        exact hmatch
      exact ⟨by simp [combine_m3u_run, hempty],
        Or.inr (by simp [combine_m3u_run, hempty])⟩

/-- C8 witness: a concrete run with a missing input directory. -/
theorem c8_witness :
    (combine_m3u_run false [] "individual_m3u_files" "combined_master_playlist.m3u").1
        = none ∧
    ((combine_m3u_run false [] "individual_m3u_files" "combined_master_playlist.m3u").2
        = ["Error: The input directory " ++ "individual_m3u_files" ++
            " does not exist. Please ensure the directory is valid and contains M3U files."] ∨
      (combine_m3u_run false [] "individual_m3u_files" "combined_master_playlist.m3u").2
        = ["No .m3u files were found in the directory " ++ "individual_m3u_files" ++
            ". Ensure that the directory contains M3U files for combination."]) :=
  c8_no_output false [] "individual_m3u_files" "combined_master_playlist.m3u" (Or.inl rfl)

/-- C9: when the output directory is absent (and its creation succeeds), the
splitter creates it before opening the input file — the mkdir event precedes
the openRead event in every run — and on the missing-input-file path the run
performs no write: the directory creation is the only filesystem change. -/
theorem c9_mkdir_before_open (inputFile outDir : String) :
    (∀ body : BodyOutcome, ∃ rest,
      (split_m3u_run false none inputFile outDir body).events
        = FsEvent.mkdirOut outDir :: FsEvent.openRead inputFile :: rest) ∧
    (split_m3u_run false none inputFile outDir BodyOutcome.fileNotFound).events
      = [FsEvent.mkdirOut outDir, FsEvent.openRead inputFile] ∧
    (split_m3u_run false none inputFile outDir BodyOutcome.fileNotFound).events.filter
        isChange = [FsEvent.mkdirOut outDir] ∧
    (split_m3u_run false none inputFile outDir BodyOutcome.fileNotFound).result
      = SplitOutcome.completed ⟨[], 0⟩ := by
  refine ⟨?_, rfl, ?_, rfl⟩
  · intro body
    cases body with
    | normal lines => exact ⟨_, rfl⟩
    | fileNotFound => exact ⟨[], rfl⟩
    | otherExc written e => exact ⟨_, rfl⟩
  · simp [split_m3u_run, splitTryBody, isChange]


/-- C7 witness: the amended guarantees evaluated at a concrete invocation. -/
theorem c7_witness :
    (∀ (body : BodyOutcome) (m : String),
      (split_m3u_run true none "playlist.m3u" "individual_m3u_files" body).result
        ≠ SplitOutcome.propagated m) ∧
    ((split_m3u_run true none "playlist.m3u" "individual_m3u_files"
        BodyOutcome.fileNotFound).result = SplitOutcome.completed ⟨[], 0⟩ ∧
      (split_m3u_run true none "playlist.m3u" "individual_m3u_files"
        BodyOutcome.fileNotFound).events.filter isChange
        = (if true then [] else [FsEvent.mkdirOut "individual_m3u_files"]) ∧
      (split_m3u_run true none "playlist.m3u" "individual_m3u_files"
        BodyOutcome.fileNotFound).messages.head?
        = some ("Error: The input M3U file " ++ "playlist.m3u" ++
            " was not found. Please verify the file path.")) ∧
    (∀ (written : List (String × List String)) (e : String),
      (split_m3u_run true none "playlist.m3u" "individual_m3u_files"
        (BodyOutcome.otherExc written e)).messages.head?
        = some ("An unexpected error occurred during processing: " ++ e)) :=
  c7_amended true "playlist.m3u" "individual_m3u_files"

/-- C9 witness: the ordering statement evaluated at a concrete invocation. -/
theorem c9_witness :
    (∀ body : BodyOutcome, ∃ rest,
      (split_m3u_run false none "playlist.m3u" "out" body).events
        = FsEvent.mkdirOut "out" :: FsEvent.openRead "playlist.m3u" :: rest) ∧
    (split_m3u_run false none "playlist.m3u" "out" BodyOutcome.fileNotFound).events
      = [FsEvent.mkdirOut "out", FsEvent.openRead "playlist.m3u"] ∧
    (split_m3u_run false none "playlist.m3u" "out"
        BodyOutcome.fileNotFound).events.filter isChange = [FsEvent.mkdirOut "out"] ∧
    (split_m3u_run false none "playlist.m3u" "out" BodyOutcome.fileNotFound).result
      = SplitOutcome.completed ⟨[], 0⟩ :=
  c9_mkdir_before_open "playlist.m3u" "out"


end M3U
